import Mathlib

/-!
Verification of the fieldclimate-collector incremental synchronization core.

The Python source is embedded shallowly:

* instants (ISO-8601 timestamps handled through dateutil and datetime) are
  modelled as integers counting seconds, with the source arithmetic
  (timedelta hours/days) translated to second counts;
* numeric measurement values are modelled as rationals;
* the SQLite tables are modelled as Lean lists of rows in rowid order, and
  each DatabaseManager operation is translated to a pure function on that
  state;
* exceptions are modelled with Except / Option;
* the stdlib json module, HMAC-SHA256 and the UTF-8 codec are implemented
  concretely below, following their documented behaviour.
-/

namespace FieldClimate

/-- A raw data point of an API sensor-data response, as consumed by
StationManager._process_sensor_data: the optional date_utc and date fields,
the optional numeric value, and the optional quality flag. -/
structure DataPoint where
  date_utc : Option Int
  date : Option Int
  value : Option ℚ
  quality : Option String
deriving DecidableEq, Repr

/-- A measurement row of the measurements table (and equally the dict shape
handed to DatabaseManager.add_measurements): sensor id, timestamp, numeric
value, optional quality flag and optional raw payload. The raw payload is
stored serialized in SQLite; serialization is injective on points, so the
model keeps the point itself — the deduplication key never involves it. -/
structure Measurement where
  sensor_id : String
  timestamp : Int
  value : ℚ
  quality : Option String
  raw_data : Option DataPoint
deriving DecidableEq, Repr

/-- The unique-index key of the measurements table: the triple
(sensor_id, timestamp, value) of idx_measurements_unique in models.py. -/
def measKey (m : Measurement) : String × Int × ℚ :=
  (m.sensor_id, m.timestamp, m.value)

/-- A row of the stations table: id, name, optional coordinates, optional
metadata blob, optional last_updated watermark, enabled flag. -/
structure Station where
  id : String
  name : String
  latitude : Option ℚ
  longitude : Option ℚ
  elevation : Option ℚ
  metadata : Option String
  last_updated : Option Int
  enabled : Bool
deriving DecidableEq, Repr

/-- A row of the sensors table. -/
structure Sensor where
  id : String
  station_id : String
  name : String
  type : String
  unit : Option String
  position : Option String
  metadata : Option String
deriving DecidableEq, Repr

/-- The SQLite database state: the three tables, each as its list of rows in
rowid order. -/
structure DB where
  stations : List Station
  sensors : List Sensor
  measurements : List Measurement
deriving DecidableEq, Repr

/-- Whether a measurement with the given unique key is already stored. -/
def hasMeasKey (rows : List Measurement) (k : String × Int × ℚ) : Bool :=
  rows.any (fun r => measKey r == k)

/-- One INSERT OR IGNORE of a measurement row: appended when its unique key
is absent (contributing 1 to the rowcount of the cursor), ignored when a row
with the key exists (contributing 0). -/
def insertOrIgnoreMeas (rows : List Measurement) (m : Measurement) :
    List Measurement × Nat :=
  if hasMeasKey rows (measKey m) then (rows, 0) else (rows ++ [m], 1)

/-- DatabaseManager.add_measurements: batch INSERT OR IGNORE of the given
measurements in order, returning the updated table and cursor.rowcount —
the number of rows actually newly inserted. -/
def add_measurements (rows : List Measurement) (batch : List Measurement) :
    List Measurement × Nat :=
  batch.foldl
    (fun acc m =>
      let step := insertOrIgnoreMeas acc.1 m
      (step.1, acc.2 + step.2))
    (rows, 0)

/-- DatabaseManager.get_station: first row of the stations table with the
given id, if any. -/
def get_station (db : DB) (station_id : String) : Option Station :=
  db.stations.find? (fun s => s.id == station_id)

/-- DatabaseManager.add_station: INSERT OR REPLACE by primary key — any row
with the same id is removed and the new row is appended. -/
def add_station (db : DB) (s : Station) : DB :=
  { db with stations := db.stations.filter (fun t => t.id != s.id) ++ [s] }

/-- DatabaseManager.update_station_last_updated: set the last_updated column
of every stations row with the given id. -/
def update_station_last_updated (db : DB) (station_id : String) (ts : Int) :
    DB :=
  { db with
      stations := db.stations.map
        (fun s => if s.id == station_id then { s with last_updated := some ts } else s) }

/-- DatabaseManager.get_sensors_for_station: the sensors rows whose
station_id column matches. -/
def get_sensors_for_station (db : DB) (station_id : String) : List Sensor :=
  db.sensors.filter (fun s => s.station_id == station_id)

/-- Shorthand for add_measurements lifted to the database state, discarding
nothing: the new state and the newly-inserted count. -/
def db_add_measurements (db : DB) (batch : List Measurement) : DB × Nat :=
  let r := add_measurements db.measurements batch
  ({ db with measurements := r.1 }, r.2)

/-! Basic lemmas about add_measurements, the INSERT OR IGNORE batch insert. -/

/-- Membership test distributes over appended row lists. -/
lemma hasMeasKey_append (rows more : List Measurement) (k : String × Int × ℚ) :
    hasMeasKey (rows ++ more) k = (hasMeasKey rows k || hasMeasKey more k) := by
  simp only [hasMeasKey, List.any_append]

/-- Folding the batch insert from an accumulated count only shifts the count. -/
lemma add_measurements_foldl_shift (batch : List Measurement)
    (rows : List Measurement) (c : Nat) :
    batch.foldl
      (fun acc m =>
        let step := insertOrIgnoreMeas acc.1 m
        (step.1, acc.2 + step.2))
      (rows, c)
    = ((add_measurements rows batch).1, c + (add_measurements rows batch).2) := by
  induction batch generalizing rows c with
  | nil => simp [add_measurements]
  | cons m batch ih =>
    rcases hstep : insertOrIgnoreMeas rows m with ⟨r, k⟩
    simp only [add_measurements, List.foldl_cons, hstep]
    rw [ih r (c + k), ih r (0 + k)]
    have hadd : add_measurements r batch
        = ((add_measurements r batch).1, (add_measurements r batch).2) := rfl
    simp [Nat.add_assoc]

/-- Unfolding of add_measurements on a cons. -/
lemma add_measurements_cons (rows : List Measurement) (m : Measurement)
    (batch : List Measurement) :
    add_measurements rows (m :: batch)
    = ((add_measurements (insertOrIgnoreMeas rows m).1 batch).1,
       (insertOrIgnoreMeas rows m).2
         + (add_measurements (insertOrIgnoreMeas rows m).1 batch).2) := by
  rcases hstep : insertOrIgnoreMeas rows m with ⟨r, k⟩
  simp only [add_measurements, List.foldl_cons, hstep]
  have := add_measurements_foldl_shift batch r k
  simp only [add_measurements] at this
  simpa using this

/-- A single insert leaves any already-present key present. -/
lemma hasMeasKey_insertOrIgnore_mono (rows : List Measurement) (m : Measurement)
    (k : String × Int × ℚ) (h : hasMeasKey rows k) :
    hasMeasKey (insertOrIgnoreMeas rows m).1 k := by
  unfold insertOrIgnoreMeas
  by_cases hm : hasMeasKey rows (measKey m)
  · simpa [hm] using h
  · simp only [hm, Bool.false_eq_true, if_false]
    simp [hasMeasKey_append, h]

/-- After a single insert of m, the key of m is present. -/
lemma hasMeasKey_insertOrIgnore_self (rows : List Measurement) (m : Measurement) :
    hasMeasKey (insertOrIgnoreMeas rows m).1 (measKey m) := by
  unfold insertOrIgnoreMeas
  by_cases hm : hasMeasKey rows (measKey m)
  · simp [hm]
  · simp only [hm, Bool.false_eq_true, if_false]
    simp [hasMeasKey_append, hasMeasKey]

/-- The batch insert leaves any already-present key present. -/
lemma hasMeasKey_add_measurements_mono (batch : List Measurement)
    (rows : List Measurement) (k : String × Int × ℚ) (h : hasMeasKey rows k) :
    hasMeasKey (add_measurements rows batch).1 k := by
  induction batch generalizing rows with
  | nil => simpa [add_measurements] using h
  | cons m batch ih =>
    rw [add_measurements_cons]
    exact ih _ (hasMeasKey_insertOrIgnore_mono rows m k h)

/-- After the batch insert, the key of every batch element is present. -/
lemma hasMeasKey_add_measurements_all (batch : List Measurement)
    (rows : List Measurement) (m : Measurement) (hm : m ∈ batch) :
    hasMeasKey (add_measurements rows batch).1 (measKey m) := by
  induction batch generalizing rows with
  | nil => cases hm
  | cons m0 batch ih =>
    rw [add_measurements_cons]
    rcases List.mem_cons.mp hm with h | h
    · subst h
      exact hasMeasKey_add_measurements_mono batch _ _
        (hasMeasKey_insertOrIgnore_self rows m)
    · exact ih _ h


/-- If every key of the batch is already present, the batch insert is the
identity and reports zero newly-inserted rows. -/
lemma add_measurements_all_present (batch : List Measurement)
    (rows : List Measurement)
    (h : ∀ m ∈ batch, hasMeasKey rows (measKey m)) :
    add_measurements rows batch = (rows, 0) := by
  induction batch generalizing rows with
  | nil => simp [add_measurements]
  | cons m batch ih =>
    rw [add_measurements_cons]
    have hm : hasMeasKey rows (measKey m) := h m (List.mem_cons_self m batch)
    have hins : insertOrIgnoreMeas rows m = (rows, 0) := by
      simp [insertOrIgnoreMeas, hm]
    rw [hins]
    simp only
    rw [ih rows (fun x hx => h x (List.mem_cons_of_mem m hx))]
    simp

/-- The count returned by the batch insert is exactly the growth of the
stored table, i.e. the number of rows actually newly inserted. -/
lemma add_measurements_count_eq_growth (batch : List Measurement)
    (rows : List Measurement) :
    (add_measurements rows batch).1.length
      = rows.length + (add_measurements rows batch).2 := by
  induction batch generalizing rows with
  | nil => simp [add_measurements]
  | cons m batch ih =>
    rw [add_measurements_cons]
    have hstep : (insertOrIgnoreMeas rows m).1.length
        = rows.length + (insertOrIgnoreMeas rows m).2 := by
      unfold insertOrIgnoreMeas
      by_cases hm : hasMeasKey rows (measKey m) <;> simp [hm]
    simp only
    rw [ih, hstep]
    ring

/-- C1 - Inserting the same measurement batch twice via add_measurements is
idempotent: the second identical call inserts nothing, returns 0, leaves the
stored rows unchanged (duplicates silently skipped, no error path), and both
calls return exactly the number of rows they actually newly inserted. -/
theorem C1_idempotent_ingestion (rows batch : List Measurement) :
    add_measurements (add_measurements rows batch).1 batch
      = ((add_measurements rows batch).1, 0)
    ∧ (add_measurements rows batch).1.length
        = rows.length + (add_measurements rows batch).2
    ∧ (add_measurements (add_measurements rows batch).1 batch).1.length
        = (add_measurements rows batch).1.length
          + (add_measurements (add_measurements rows batch).1 batch).2 := by
  refine ⟨?_, add_measurements_count_eq_growth batch rows,
    add_measurements_count_eq_growth batch _⟩
  exact add_measurements_all_present batch _
    (fun m hm => hasMeasKey_add_measurements_all batch rows m hm)

/-!
StationManager - the incremental sync orchestrator. The API client is
modelled as an oracle mapping (station_id, sensor_id, start, end) to either
an exception or the data array of the parsed response (none standing for a
falsy or non-dict response body). The per-point except clause of the source
skips points whose timestamp or value fails to parse; in the typed model a
present timestamp always parses, so the skip conditions are exactly the
missing-field ones.
-/

/-- One iteration of the point loop of StationManager._process_sensor_data:
timestamp is date_utc falling back to date (skip when missing), value must
be present (skip when missing), quality defaults to the empty string, the
raw point is kept as the payload. -/
def processPoint (sensor_id : String) (p : DataPoint) : Option Measurement :=
  match p.date_utc.orElse (fun _ => p.date) with
  | none => none
  | some ts =>
    match p.value with
    | none => none
    | some v =>
      some { sensor_id := sensor_id, timestamp := ts, value := v,
             quality := some (p.quality.getD ""), raw_data := some p }

/-- StationManager._process_sensor_data: build the measurement batch from
the data array, insert it via add_measurements (discarding its count), set
the station watermark to the timestamp of the last processed point when the
batch is nonempty, and return the batch length. -/
def _process_sensor_data (db : DB) (station_id sensor_id : String)
    (data : Option (List DataPoint)) : DB × Nat :=
  match data with
  | none => (db, 0)
  | some points =>
    if points.isEmpty then (db, 0)
    else
      let measurements := points.filterMap (processPoint sensor_id)
      let db1 := if measurements.isEmpty then db
                 else (db_add_measurements db measurements).1
      let db2 := match measurements.getLast? with
                 | none => db1
                 | some m => update_station_last_updated db1 station_id m.timestamp
      (db2, measurements.length)

/-- The API oracle: FieldClimateClient.get_sensor_data as seen by the
station manager, indexed by station id, sensor id and the fetch window. -/
def ApiOracle : Type :=
  String → String → Int → Int → Except Unit (Option (List DataPoint))

/-- The fetch-window start of StationManager.sync_station_data: the caller
value when supplied, else the stored watermark minus one hour of overlap,
else now minus backfill_days days. -/
def sync_start_date (backfill_days : Int) (station : Station) (now : Int)
    (start_date : Option Int) : Int :=
  match start_date with
  | some s => s
  | none =>
    match station.last_updated with
    | some lu => lu - 3600
    | none => now - 86400 * backfill_days

/-- The value of one results entry of sync_station_data: 0 when the fetch
raises, else the number of points parsed into measurements. -/
def processed_count (sensor_id : String)
    (fetch : Except Unit (Option (List DataPoint))) : Nat :=
  match fetch with
  | .error _ => 0
  | .ok none => 0
  | .ok (some points) =>
    if points.isEmpty then 0
    else (points.filterMap (processPoint sensor_id)).length

/-- The outcome of sync_station_data: the results mapping in sensor order,
the final database state, and the number of API requests issued. -/
structure SyncOutcome where
  results : List (String × Nat)
  db : DB
  api_calls : Nat
deriving DecidableEq, Repr

/-- One iteration of the sensor loop of sync_station_data: fetch the sensor
window, process and store the data, record the count, and record 0 when the
fetch raises (the per-sensor except clause of the source). -/
def sync_step (api : ApiOracle) (station_id : String) (start stop : Int)
    (acc : SyncOutcome) (sensor : Sensor) : SyncOutcome :=
  match api station_id sensor.id start stop with
  | .error _ => ⟨acc.results ++ [(sensor.id, 0)], acc.db, acc.api_calls + 1⟩
  | .ok data =>
    let pr := _process_sensor_data acc.db station_id sensor.id data
    ⟨acc.results ++ [(sensor.id, pr.2)], pr.1, acc.api_calls + 1⟩

/-- StationManager.sync_station_data: no-op for an unknown or disabled
station, else compute the fetch window, then for every sensor of the
station fetch and process its data, recording 0 for a sensor whose fetch
raises. -/
def sync_station_data (backfill_days : Int) (api : ApiOracle) (db : DB)
    (now : Int) (station_id : String) (start_date end_date : Option Int) :
    SyncOutcome :=
  match get_station db station_id with
  | none => ⟨[], db, 0⟩
  | some station =>
    if !station.enabled then ⟨[], db, 0⟩
    else
      let start := sync_start_date backfill_days station now start_date
      let stop := end_date.getD now
      let sensors := get_sensors_for_station db station_id
      if sensors.isEmpty then ⟨[], db, 0⟩
      else sensors.foldl (sync_step api station_id start stop) ⟨[], db, 0⟩

/-- C9 - sync_station_data on a station id absent from the store returns the
empty mapping, issues no API request and leaves the database untouched. -/
theorem C9_unknown_station_noop (backfill_days : Int) (api : ApiOracle)
    (db : DB) (now : Int) (station_id : String)
    (start_date end_date : Option Int)
    (h : get_station db station_id = none) :
    sync_station_data backfill_days api db now station_id start_date end_date
      = ⟨[], db, 0⟩ := by
  simp [sync_station_data, h]

/-- Witness for C9 at a concrete empty store. -/
theorem C9_unknown_station_noop_witness :
    sync_station_data 7 (fun _ _ _ _ => .error ()) ⟨[], [], []⟩ 0 "st1" none none
      = ⟨[], ⟨[], [], []⟩, 0⟩ :=
  C9_unknown_station_noop 7 (fun _ _ _ _ => .error ()) ⟨[], [], []⟩ 0 "st1"
    none none (by decide)

/-- The count of a batch insert never exceeds the batch length. -/
lemma add_measurements_count_le (batch rows : List Measurement) :
    (add_measurements rows batch).2 ≤ batch.length := by
  induction batch generalizing rows with
  | nil => simp [add_measurements]
  | cons m batch ih =>
    rw [add_measurements_cons]
    have hstep : (insertOrIgnoreMeas rows m).2 ≤ 1 := by
      unfold insertOrIgnoreMeas
      by_cases hm : hasMeasKey rows (measKey m) <;> simp [hm]
    have := ih (insertOrIgnoreMeas rows m).1
    simp only [List.length_cons]
    omega

/-- The reported count of _process_sensor_data does not depend on the stored
state: it is the number of points parsed into measurements, whether or not
they are duplicates of stored rows. -/
lemma process_sensor_data_count (db : DB) (sid sen : String)
    (d : Option (List DataPoint)) :
    (_process_sensor_data db sid sen d).2 = processed_count sen (.ok d) := by
  cases d with
  | none => rfl
  | some points =>
    by_cases h : points.isEmpty <;>
      simp [_process_sensor_data, processed_count, h]

/-- Updating the watermark leaves the measurements table unchanged. -/
lemma update_station_last_updated_measurements (db : DB) (sid : String)
    (ts : Int) :
    (update_station_last_updated db sid ts).measurements = db.measurements :=
  rfl

/-- _process_sensor_data grows the measurements table by at most its
reported count. -/
lemma process_sensor_data_growth (db : DB) (sid sen : String)
    (d : Option (List DataPoint)) :
    (_process_sensor_data db sid sen d).1.measurements.length
      ≤ db.measurements.length + (_process_sensor_data db sid sen d).2 := by
  cases d with
  | none => simp [_process_sensor_data]
  | some points =>
    by_cases h : points.isEmpty
    · simp [_process_sensor_data, h]
    · simp only [_process_sensor_data, h, if_false]
      set ms := points.filterMap (processPoint sen) with hms
      have hgrow : (if ms.isEmpty then db else (db_add_measurements db ms).1).measurements.length
          ≤ db.measurements.length + ms.length := by
        by_cases hemp : ms.isEmpty
        · simp [hemp]
        · simp only [hemp, Bool.false_eq_true, if_false]
          have h1 := add_measurements_count_eq_growth ms db.measurements
          have h2 := add_measurements_count_le ms db.measurements
          simp only [db_add_measurements]
          omega
      cases hlast : ms.getLast? with
      | none => simpa using hgrow
      | some m =>
        simpa [update_station_last_updated_measurements] using hgrow

/-- The results list built by the sensor loop: one entry per sensor in
order, carrying the parsed-point count of that sensor's fetch. -/
lemma sync_foldl_results (api : ApiOracle) (sid : String) (start stop : Int)
    (sensors : List Sensor) (acc : SyncOutcome) :
    (sensors.foldl (sync_step api sid start stop) acc).results
      = acc.results
        ++ sensors.map
             (fun s => (s.id, processed_count s.id (api sid s.id start stop))) := by
  induction sensors generalizing acc with
  | nil => simp
  | cons s sensors ih =>
    rw [List.foldl_cons, ih]
    cases hapi : api sid s.id start stop with
    | error e => simp [sync_step, hapi, processed_count]
    | ok d => simp [sync_step, hapi, process_sensor_data_count]

/-- The sensor loop grows the measurements table by at most the sum of the
reported counts. -/
lemma sync_foldl_growth (api : ApiOracle) (sid : String) (start stop : Int)
    (sensors : List Sensor) (acc : SyncOutcome) :
    (sensors.foldl (sync_step api sid start stop) acc).db.measurements.length
      ≤ acc.db.measurements.length
        + (sensors.map
            (fun s => processed_count s.id (api sid s.id start stop))).sum := by
  induction sensors generalizing acc with
  | nil => simp
  | cons s sensors ih =>
    rw [List.foldl_cons]
    refine le_trans (ih _) ?_
    have hstep : (sync_step api sid start stop acc s).db.measurements.length
        ≤ acc.db.measurements.length
          + processed_count s.id (api sid s.id start stop) := by
      cases hapi : api sid s.id start stop with
      | error e => simp [sync_step, hapi, processed_count]
      | ok d =>
        have := process_sensor_data_growth acc.db sid s.id d
        rw [process_sensor_data_count] at this
        simpa [sync_step, hapi] using this
    simp only [List.map_cons, List.sum_cons]
    omega

/-- C2 counterexample - with the fetched point already stored, the sync
reports 1 for the sensor although 0 measurements were newly added: the
returned counts are parsed-point counts, not newly-added counts. -/
theorem C2_counterexample :
    let p : DataPoint := ⟨some 100, none, some 5, none⟩
    let db0 : DB :=
      ⟨[⟨"st1", "S", none, none, none, none, none, true⟩],
       [⟨"sn1", "st1", "T", "temperature", some "", some "", none⟩],
       [⟨"sn1", 100, 5, none, none⟩]⟩
    let api : ApiOracle := fun _ _ _ _ => .ok (some [p])
    let r := sync_station_data 7 api db0 0 "st1" (some 0) (some 200)
    r.results = [("sn1", 1)] ∧ r.db.measurements = db0.measurements := by
  decide

/-- C2 amended - for an enabled stored station with sensors, the sync
returns one entry per sensor in order, whose count is the number of points
parsed from that fetch (0 on a fetch error), which bounds the number of
measurements newly added but need not equal it. -/
theorem C2_sensor_counts (backfill_days : Int) (api : ApiOracle) (db : DB)
    (now : Int) (station_id : String) (start_date end_date : Option Int)
    (st : Station) (hst : get_station db station_id = some st)
    (hen : st.enabled = true)
    (hsens : (get_sensors_for_station db station_id).isEmpty = false) :
    (sync_station_data backfill_days api db now station_id start_date
        end_date).results
      = (get_sensors_for_station db station_id).map
          (fun s => (s.id,
            processed_count s.id
              (api station_id s.id
                (sync_start_date backfill_days st now start_date)
                (end_date.getD now))))
    ∧ (sync_station_data backfill_days api db now station_id start_date
          end_date).db.measurements.length
        ≤ db.measurements.length
          + ((sync_station_data backfill_days api db now station_id
                start_date end_date).results.map Prod.snd).sum := by
  have hrw : sync_station_data backfill_days api db now station_id
      start_date end_date
      = (get_sensors_for_station db station_id).foldl
          (sync_step api station_id
            (sync_start_date backfill_days st now start_date)
            (end_date.getD now))
          ⟨[], db, 0⟩ := by
    simp [sync_station_data, hst, hen, hsens]
  rw [hrw]
  constructor
  · simpa using sync_foldl_results api station_id _ _ _ _
  · rw [sync_foldl_results]
    refine le_trans (sync_foldl_growth api station_id _ _ _ _) ?_
    simp [List.map_map, Function.comp_def]

/-- Witness for C2 amended at a concrete store and oracle. -/
theorem C2_sensor_counts_witness :
    get_station
        ⟨[⟨"st1", "S", none, none, none, none, none, true⟩],
         [⟨"sn1", "st1", "T", "temperature", some "", some "", none⟩],
         []⟩ "st1"
      = some ⟨"st1", "S", none, none, none, none, none, true⟩
    ∧ (⟨"st1", "S", none, none, none, none, none, true⟩ : Station).enabled = true
    ∧ (get_sensors_for_station
        ⟨[⟨"st1", "S", none, none, none, none, none, true⟩],
         [⟨"sn1", "st1", "T", "temperature", some "", some "", none⟩],
         []⟩ "st1").isEmpty = false
    ∧ ((sync_station_data 7 (fun _ _ _ _ => .ok (some []))
          ⟨[⟨"st1", "S", none, none, none, none, none, true⟩],
           [⟨"sn1", "st1", "T", "temperature", some "", some "", none⟩],
           []⟩ 0 "st1" (some 0) (some 200)).results
        = (get_sensors_for_station
            ⟨[⟨"st1", "S", none, none, none, none, none, true⟩],
             [⟨"sn1", "st1", "T", "temperature", some "", some "", none⟩],
             []⟩ "st1").map
            (fun s => (s.id,
              processed_count s.id
                ((fun _ _ _ _ => Except.ok (some [])) "st1" s.id
                  (sync_start_date 7 ⟨"st1", "S", none, none, none, none, none, true⟩ 0 (some 0))
                  ((some 200 : Option Int).getD 0))))
      ∧ (sync_station_data 7 (fun _ _ _ _ => .ok (some []))
            ⟨[⟨"st1", "S", none, none, none, none, none, true⟩],
             [⟨"sn1", "st1", "T", "temperature", some "", some "", none⟩],
             []⟩ 0 "st1" (some 0) (some 200)).db.measurements.length
          ≤ (⟨[⟨"st1", "S", none, none, none, none, none, true⟩],
              [⟨"sn1", "st1", "T", "temperature", some "", some "", none⟩],
              []⟩ : DB).measurements.length
            + ((sync_station_data 7 (fun _ _ _ _ => .ok (some []))
                  ⟨[⟨"st1", "S", none, none, none, none, none, true⟩],
                   [⟨"sn1", "st1", "T", "temperature", some "", some "", none⟩],
                   []⟩ 0 "st1" (some 0) (some 200)).results.map Prod.snd).sum) :=
  ⟨by decide, by decide, by decide,
    C2_sensor_counts 7 (fun _ _ _ _ => .ok (some []))
      ⟨[⟨"st1", "S", none, none, none, none, none, true⟩],
       [⟨"sn1", "st1", "T", "temperature", some "", some "", none⟩],
       []⟩ 0 "st1" (some 0) (some 200)
      ⟨"st1", "S", none, none, none, none, none, true⟩
      (by decide) (by decide) (by decide)⟩

/-- Finding a station in a watermark-updated table finds the same row with
its last_updated column set. -/
lemma find?_update_station (l : List Station) (sid : String) (ts : Int) :
    (l.map (fun s => if s.id == sid then { s with last_updated := some ts } else s)).find?
        (fun s => s.id == sid)
      = (l.find? (fun s => s.id == sid)).map
          (fun s => { s with last_updated := some ts }) := by
  induction l with
  | nil => rfl
  | cons a l ih =>
    simp only [List.map_cons, List.find?_cons]
    by_cases ha : a.id = sid
    · simp [ha]
    · have hbeq : (a.id == sid) = false := beq_eq_false_iff_ne.mpr ha
      simp only [hbeq, Bool.false_eq_true, if_false, ih]

/-- get_station after update_station_last_updated: the looked-up row is the
previous row with its watermark set. -/
lemma get_station_update (db : DB) (sid : String) (ts : Int) :
    get_station (update_station_last_updated db sid ts) sid
      = (get_station db sid).map (fun s => { s with last_updated := some ts }) := by
  unfold get_station update_station_last_updated
  exact find?_update_station db.stations sid ts

/-- The batch insert leaves the stations table unchanged. -/
lemma db_add_measurements_stations (db : DB) (batch : List Measurement) :
    (db_add_measurements db batch).1.stations = db.stations :=
  rfl

/-- C4 counterexample - the watermark can move backwards: with a stored
watermark of 1000 and a fetch (window starting at 1000 - 3600) returning one
point at 900, the sync produces one measurement and leaves the station
watermark at 900, earlier than before the call. -/
theorem C4_counterexample :
    let db0 : DB :=
      ⟨[⟨"st1", "S", none, none, none, none, some 1000, true⟩],
       [⟨"sn1", "st1", "T", "temperature", some "", some "", none⟩],
       []⟩
    let api : ApiOracle := fun _ _ _ _ => .ok (some [⟨some 900, none, some 1, none⟩])
    let r := sync_station_data 7 api db0 2000 "st1" none none
    r.results = [("sn1", 1)]
    ∧ get_station r.db "st1"
        = some ⟨"st1", "S", none, none, none, none, some 900, true⟩ := by
  decide

/-- C4 amended - the fetch window starts at the stored watermark minus one
hour, and _process_sensor_data sets the station watermark to the timestamp
of the last point processed in response order - a value that need not be
later than (or equal to) the previous watermark. -/
theorem C4_watermark_last_point (backfill_days now w : Int) (st : Station)
    (db : DB) (sid sen : String) (points : List DataPoint) (m : Measurement)
    (hw : st.last_updated = some w)
    (hms : (points.filterMap (processPoint sen)).getLast? = some m) :
    sync_start_date backfill_days st now none = w - 3600
    ∧ get_station (_process_sensor_data db sid sen (some points)).1 sid
        = (get_station db sid).map
            (fun s => { s with last_updated := some m.timestamp }) := by
  constructor
  · simp [sync_start_date, hw]
  · have hne : points.isEmpty = false := by
      cases points with
      | nil => simp at hms
      | cons p ps => rfl
    simp only [_process_sensor_data, hne, Bool.false_eq_true, if_false, hms]
    have hmsne : (points.filterMap (processPoint sen)).isEmpty = false := by
      cases hl : points.filterMap (processPoint sen) with
      | nil => rw [hl] at hms; simp at hms
      | cons x xs => rfl
    simp only [hmsne, Bool.false_eq_true, if_false]
    rw [get_station_update]
    rfl

/-- Witness for C4 amended at a concrete store, point list and watermark. -/
theorem C4_watermark_last_point_witness :
    (⟨"st1", "S", none, none, none, none, some 1000, true⟩ : Station).last_updated = some 1000
    ∧ (([⟨some 900, none, some 1, none⟩] : List DataPoint).filterMap (processPoint "sn1")).getLast?
        = some ⟨"sn1", 900, 1, some "", some ⟨some 900, none, some 1, none⟩⟩
    ∧ (sync_start_date 7 ⟨"st1", "S", none, none, none, none, some 1000, true⟩ 2000 none = 1000 - 3600
       ∧ get_station
            (_process_sensor_data
              ⟨[⟨"st1", "S", none, none, none, none, some 1000, true⟩], [], []⟩
              "st1" "sn1" (some [⟨some 900, none, some 1, none⟩])).1 "st1"
          = (get_station
              ⟨[⟨"st1", "S", none, none, none, none, some 1000, true⟩], [], []⟩ "st1").map
              (fun s => { s with last_updated := some (900 : Int) })) :=
  ⟨by decide, by decide,
    C4_watermark_last_point 7 2000 1000
      ⟨"st1", "S", none, none, none, none, some 1000, true⟩
      ⟨[⟨"st1", "S", none, none, none, none, some 1000, true⟩], [], []⟩
      "st1" "sn1" [⟨some 900, none, some 1, none⟩]
      ⟨"sn1", 900, 1, some "", some ⟨some 900, none, some 1, none⟩⟩
      (by decide) (by decide)⟩

/-!
error_handler.py - the application-layer retry decorator and the exception
taxonomy, and api_client.py - response classification. Sleeps are recorded
rather than performed; the pseudo-random jitter source time.time() mod 1 is
an input sequence of fractions in the interval zero-inclusive one-exclusive.
-/

/-- The exception taxonomy of error_handler.py restricted to the request
path: the four APIError subclasses, the APIError base itself (raised for
other transport failures), and DatabaseError. -/
inductive PyExc where
  | apiAuth
  | apiRateLimit
  | apiResponse
  | apiTimeout
  | apiGeneric
  | database
deriving DecidableEq, Repr

/-- Python isinstance against APIError: every APIError subclass matches,
DatabaseError does not. -/
def isAPIError : PyExc → Bool
  | .database => false
  | _ => true

/-- The default exception list of retry_with_backoff, APIError and
DatabaseError - caught with their subclasses, so APIAuthError and
APIRateLimitError are caught too. -/
def defaultRetryable (e : PyExc) : Bool :=
  isAPIError e || e == .database

/-- The explicit exception list of the decorator on
FieldClimateClient._request: only APIResponseError and APITimeoutError. -/
def requestRetryable (e : PyExc) : Bool :=
  e == .apiResponse || e == .apiTimeout

/-- What a run of a retried operation looks like from outside: the final
outcome, the number of invocations of the wrapped function, and the sleep
durations between attempts in order. -/
structure RetryTrace (E A : Type) where
  result : Except E A
  calls : Nat
  sleeps : List ℚ
deriving Repr

instance instDecEqExcept {E A : Type} [DecidableEq E] [DecidableEq A] :
    DecidableEq (Except E A) := fun x y =>
  match x, y with
  | .ok a, .ok b => decidable_of_iff (a = b) (by simp)
  | .error a, .error b => decidable_of_iff (a = b) (by simp)
  | .ok _, .error _ => isFalse (fun hc => Except.noConfusion hc)
  | .error _, .ok _ => isFalse (fun hc => Except.noConfusion hc)

instance instDecEqRetryTrace {E A : Type} [DecidableEq E] [DecidableEq A] :
    DecidableEq (RetryTrace E A) := fun a b =>
  decidable_of_iff
    (a.result = b.result ∧ a.calls = b.calls ∧ a.sleeps = b.sleeps)
    (by cases a; cases b; simp)

/-- The while loop of retry_with_backoff, unrolled on the number of retries
still allowed. An exception outside the retried list propagates at once; a
retried exception with no retries left re-raises; otherwise the wrapper
sleeps backoff times the jitter 0.8 + 0.4 * frac and retries with the
backoff multiplied by backoff_factor. -/
def retryAux (f : Nat → Except E A) (retryable : E → Bool) (frac : Nat → ℚ)
    (backoff_factor : ℚ) : Nat → Nat → ℚ → RetryTrace E A
  | 0, attempt, _ =>
    match f attempt with
    | .ok a => ⟨.ok a, attempt + 1, []⟩
    | .error e => ⟨.error e, attempt + 1, []⟩
  | remaining + 1, attempt, backoff =>
    match f attempt with
    | .ok a => ⟨.ok a, attempt + 1, []⟩
    | .error e =>
      if retryable e then
        let sleep := backoff * (8/10 + 4/10 * frac attempt)
        let t := retryAux f retryable frac backoff_factor remaining
          (attempt + 1) (backoff * backoff_factor)
        ⟨t.result, t.calls, sleep :: t.sleeps⟩
      else ⟨.error e, attempt + 1, []⟩

/-- retry_with_backoff: run f, catching the listed exceptions up to
max_retries times with exponential jittered backoff. -/
def retry_with_backoff (max_retries : Nat)
    (initial_backoff backoff_factor : ℚ) (retryable : E → Bool)
    (f : Nat → Except E A) (frac : Nat → ℚ) : RetryTrace E A :=
  retryAux f retryable frac backoff_factor max_retries 0 initial_backoff

/-- The transport outcome of one HTTP attempt, as the except clauses of
FieldClimateClient._request distinguish them. -/
inductive Transport where
  | timeout
  | transportError
  | response (status : Nat) (bodyError : Bool)
deriving DecidableEq, Repr

/-- The response classification of FieldClimateClient._request: 429 raises
APIRateLimitError, 401 and 403 raise APIAuthError, other 4xx and 5xx go
through raise_for_status to the generic APIError branch, a 2xx body whose
error field is set raises APIResponseError, a transport timeout raises
APITimeoutError, any other transport failure the generic APIError. -/
def classifyResponse : Transport → Except PyExc Bool
  | .timeout => .error .apiTimeout
  | .transportError => .error .apiGeneric
  | .response status bodyError =>
    if status == 429 then .error .apiRateLimit
    else if status == 401 || status == 403 then .error .apiAuth
    else if 400 ≤ status then .error .apiGeneric
    else if bodyError then .error .apiResponse
    else .ok true

/-- FieldClimateClient._request: one classified attempt per transport
outcome, wrapped in retry_with_backoff with max_retries 3, initial backoff
5.0 and the explicit APIResponseError / APITimeoutError list. -/
def _request (attempts : Nat → Transport) (frac : Nat → ℚ) :
    RetryTrace PyExc Bool :=
  retry_with_backoff 3 5 2 requestRetryable
    (fun k => classifyResponse (attempts k)) frac

/-- StationManager.discover_stations: calls get_stations, i.e. _request,
and is itself decorated with retry_with_backoff at max_retries 3 and the
DEFAULT exception list; its own except APIError clause only logs and
re-raises. The k-th outer attempt runs _request on its own transport
sequence attempts k with jitter sequence fracInner k. -/
def discover_stations (attempts : Nat → Nat → Transport)
    (fracOuter : Nat → ℚ) (fracInner : Nat → Nat → ℚ) :
    RetryTrace PyExc Bool :=
  retry_with_backoff 3 1 2 defaultRetryable
    (fun k => (_request (attempts k) (fracInner k)).result) fracOuter

/-- A first attempt failing with an exception outside the retried list
propagates immediately: one call, no sleep. -/
lemma retryAux_first_not_retryable (f : Nat → Except E A)
    (retryable : E → Bool) (frac : Nat → ℚ) (backoff_factor : ℚ)
    (remaining attempt : Nat) (backoff : ℚ) (e : E)
    (hf : f attempt = .error e) (hnr : retryable e = false) :
    retryAux f retryable frac backoff_factor remaining attempt backoff
      = ⟨.error e, attempt + 1, []⟩ := by
  cases remaining with
  | zero => simp [retryAux, hf]
  | succ r => simp [retryAux, hf, hnr]

/-- When every attempt fails with the same retried exception, the loop runs
through all its retries: the trace is the full sleep schedule followed by
the re-raise, with one call per allowed attempt. -/
lemma retryAux_all_fail (f : Nat → Except E A) (retryable : E → Bool)
    (frac : Nat → ℚ) (backoff_factor : ℚ) (e : E)
    (hf : ∀ k, f k = .error e) (hre : retryable e = true) :
    ∀ (remaining attempt : Nat) (backoff : ℚ),
    retryAux f retryable frac backoff_factor remaining attempt backoff
      = ⟨.error e, attempt + remaining + 1,
         (List.range remaining).map
           (fun i => backoff * backoff_factor ^ i
             * (8/10 + 4/10 * frac (attempt + i)))⟩ := by
  intro remaining
  induction remaining with
  | zero => intro attempt backoff; simp [retryAux, hf]
  | succ r ih =>
    intro attempt backoff
    simp only [retryAux, hf, hre, if_true]
    rw [ih (attempt + 1) (backoff * backoff_factor)]
    simp only [RetryTrace.mk.injEq, true_and]
    refine ⟨by omega, ?_⟩
    rw [List.range_succ_eq_map, List.map_cons, List.map_map]
    refine congrArg₂ List.cons ?_ ?_
    · simp
    · refine List.map_congr_left ?_
      intro i hi
      simp only [Function.comp, Nat.succ_eq_add_one]
      rw [show attempt + 1 + i = attempt + (i + 1) by omega]
      ring

/-- C5 counterexample - the inter-attempt delays of an always-failing
retried call do not obey the claimed lower bound previous delay times
backoff_factor times 0.8: with jitter fractions 3/4 then 0, the second
sleep is 8/5, below the first sleep 11/10 times 2 times 8/10 = 44/25. -/
theorem C5_counterexample :
    (retry_with_backoff 3 1 2 requestRetryable
        (fun _ => (.error .apiResponse : Except PyExc Unit))
        (fun k => if k = 0 then 3/4 else 0)).calls = 4
    ∧ (retry_with_backoff 3 1 2 requestRetryable
          (fun _ => (.error .apiResponse : Except PyExc Unit))
          (fun k => if k = 0 then 3/4 else 0)).sleeps
        = [11/10, 8/5, 16/5]
    ∧ ((8 : ℚ)/5 < 11/10 * 2 * (8/10)) := by
  have h := retryAux_all_fail
    (fun _ => (.error .apiResponse : Except PyExc Unit)) requestRetryable
    (fun k => if k = 0 then 3/4 else 0) 2 .apiResponse
    (fun _ => rfl) rfl 3 0 1
  unfold retry_with_backoff
  rw [h]
  refine ⟨rfl, ?_, by norm_num⟩
  norm_num [List.range_succ]

/-- C5 amended - a function under retry_with_backoff with max_retries = 3
that always raises a retried exception is invoked max_retries + 1 times and
then re-raises; the base delay before retry k+1 is
initial_backoff * backoff_factor ^ k, each sleep is that base scaled by a
jitter factor in the interval from 0.8 to 1.2, and each inter-attempt delay
exceeds the previous delay times backoff_factor times 2/3 (not 0.8). -/
theorem C5_backoff_retry_exhaustion (max_retries : Nat)
    (initial_backoff backoff_factor : ℚ) {E A : Type} (retryable : E → Bool)
    (f : Nat → Except E A) (frac : Nat → ℚ) (e : E)
    (hf : ∀ k, f k = .error e) (hre : retryable e = true)
    (hfrac : ∀ k, 0 ≤ frac k ∧ frac k < 1)
    (hinit : 0 < initial_backoff) (hfac : 0 < backoff_factor) :
    (retry_with_backoff max_retries initial_backoff backoff_factor
        retryable f frac).result = .error e
    ∧ (retry_with_backoff max_retries initial_backoff backoff_factor
          retryable f frac).calls = max_retries + 1
    ∧ (retry_with_backoff max_retries initial_backoff backoff_factor
          retryable f frac).sleeps
        = (List.range max_retries).map
            (fun k => initial_backoff * backoff_factor ^ k
              * (8/10 + 4/10 * frac k))
    ∧ (∀ k, 8/10 ≤ 8/10 + 4/10 * frac k ∧ 8/10 + 4/10 * frac k ≤ 12/10)
    ∧ (∀ k, (initial_backoff * backoff_factor ^ k * (8/10 + 4/10 * frac k))
            * backoff_factor * (2/3)
          < initial_backoff * backoff_factor ^ (k + 1)
            * (8/10 + 4/10 * frac (k + 1))) := by
  have htrace := retryAux_all_fail f retryable frac backoff_factor e hf hre
    max_retries 0 initial_backoff
  unfold retry_with_backoff
  rw [htrace]
  refine ⟨rfl, ?_, by simp, ?_, ?_⟩
  · show 0 + max_retries + 1 = max_retries + 1
    omega
  · intro k
    rcases hfrac k with ⟨h0, h1⟩
    constructor <;> linarith
  · intro k
    rcases hfrac k with ⟨hk0, hk1⟩
    rcases hfrac (k + 1) with ⟨hk10, hk11⟩
    have hpow : 0 < initial_backoff * backoff_factor ^ (k + 1) := by positivity
    have hlt : (8/10 + 4/10 * frac k) * (2/3) < 8/10 := by linarith
    calc initial_backoff * backoff_factor ^ k * (8/10 + 4/10 * frac k)
          * backoff_factor * (2/3)
        = initial_backoff * backoff_factor ^ (k + 1)
          * ((8/10 + 4/10 * frac k) * (2/3)) := by ring
      _ < initial_backoff * backoff_factor ^ (k + 1) * (8/10) :=
          mul_lt_mul_of_pos_left hlt hpow
      _ ≤ initial_backoff * backoff_factor ^ (k + 1)
          * (8/10 + 4/10 * frac (k + 1)) := by
          refine mul_le_mul_of_nonneg_left ?_ (le_of_lt hpow)
          linarith

/-- Witness for C5 amended: the concrete always-failing ResponseError run
with zero jitter fractions. -/
theorem C5_backoff_retry_exhaustion_witness :
    (∀ k : Nat,
      (fun _ : Nat => (.error .apiResponse : Except PyExc Unit)) k
        = .error .apiResponse)
    ∧ requestRetryable .apiResponse = true
    ∧ (∀ k : Nat, 0 ≤ (fun _ : Nat => (0 : ℚ)) k
        ∧ (fun _ : Nat => (0 : ℚ)) k < 1)
    ∧ 0 < (1 : ℚ) ∧ 0 < (2 : ℚ)
    ∧ ((retry_with_backoff 3 1 2 requestRetryable
          (fun _ => (.error .apiResponse : Except PyExc Unit))
          (fun _ => (0 : ℚ))).result = .error .apiResponse
      ∧ (retry_with_backoff 3 1 2 requestRetryable
            (fun _ => (.error .apiResponse : Except PyExc Unit))
            (fun _ => (0 : ℚ))).calls = 3 + 1
      ∧ (retry_with_backoff 3 1 2 requestRetryable
            (fun _ => (.error .apiResponse : Except PyExc Unit))
            (fun _ => (0 : ℚ))).sleeps
          = (List.range 3).map
              (fun k => 1 * 2 ^ k * (8/10 + 4/10 * (fun _ : Nat => (0 : ℚ)) k))
      ∧ (∀ k : Nat, 8/10 ≤ 8/10 + 4/10 * (fun _ : Nat => (0 : ℚ)) k
          ∧ 8/10 + 4/10 * (fun _ : Nat => (0 : ℚ)) k ≤ 12/10)
      ∧ (∀ k : Nat, (1 * 2 ^ k * (8/10 + 4/10 * (fun _ : Nat => (0 : ℚ)) k))
              * 2 * (2/3)
            < 1 * 2 ^ (k + 1)
              * (8/10 + 4/10 * (fun _ : Nat => (0 : ℚ)) (k + 1)))) :=
  ⟨fun _ => rfl, rfl, fun _ => by norm_num, by norm_num, by norm_num,
    C5_backoff_retry_exhaustion 3 1 2 requestRetryable
      (fun _ => (.error .apiResponse : Except PyExc Unit))
      (fun _ => (0 : ℚ)) .apiResponse
      (fun _ => rfl) rfl (fun _ => by norm_num) (by norm_num) (by norm_num)⟩

/-- C6 counterexample - an always-401 discovery is retried by the backoff
layer: discover_stations carries the DEFAULT exception list, which includes
APIAuthError through the APIError base class, so the wrapped call runs 4
times with 3 backoff sleeps before the AuthError reaches the caller. -/
theorem C6_counterexample :
    (discover_stations (fun _ _ => .response 401 false)
        (fun _ => 0) (fun _ _ => 0)).result = .error .apiAuth
    ∧ (discover_stations (fun _ _ => .response 401 false)
          (fun _ => 0) (fun _ _ => 0)).calls = 4
    ∧ (discover_stations (fun _ _ => .response 401 false)
          (fun _ => 0) (fun _ _ => 0)).sleeps = [4/5, 8/5, 16/5] := by
  have hone : _request (fun _ => Transport.response 401 false) (fun _ => (0 : ℚ))
      = ⟨.error .apiAuth, 1, []⟩ := by
    unfold _request retry_with_backoff
    exact retryAux_first_not_retryable
      (fun k => classifyResponse ((fun _ => Transport.response 401 false) k))
      requestRetryable (fun _ => 0) 2 3 0 5 PyExc.apiAuth rfl rfl
  have h := retryAux_all_fail
    (fun k => (_request ((fun _ _ => Transport.response 401 false) k)
      ((fun _ _ => (0 : ℚ)) k)).result)
    defaultRetryable (fun _ => 0) 2 PyExc.apiAuth
    (fun k => congrArg RetryTrace.result hone) rfl 3 0 1
  unfold discover_stations retry_with_backoff
  rw [h]
  refine ⟨rfl, rfl, ?_⟩
  norm_num [List.range_succ]

/-- C6 amended - at the HTTP client layer the claim holds: the decorator on
_request retries only APIResponseError and APITimeoutError, so an AuthError
or RateLimitError classification propagates out of _request after a single
attempt with no backoff sleep. But the station-manager discovery wrappers
use the default exception list, which does catch and retry AuthError and
RateLimitError (both are APIError subclasses). -/
theorem C6_retry_classification (attempts : Nat → Transport)
    (frac : Nat → ℚ) (e : PyExc)
    (hcl : classifyResponse (attempts 0) = .error e)
    (hnr : requestRetryable e = false) :
    _request attempts frac = ⟨.error e, 1, []⟩
    ∧ requestRetryable .apiAuth = false
    ∧ requestRetryable .apiRateLimit = false
    ∧ defaultRetryable .apiAuth = true
    ∧ defaultRetryable .apiRateLimit = true := by
  refine ⟨?_, rfl, rfl, rfl, rfl⟩
  unfold _request retry_with_backoff
  exact retryAux_first_not_retryable _ _ _ _ _ _ _ e hcl hnr

/-- Witness for C6 amended at a concrete 401 transport outcome. -/
theorem C6_retry_classification_witness :
    classifyResponse ((fun _ : Nat => Transport.response 401 false) 0)
      = .error .apiAuth
    ∧ requestRetryable .apiAuth = false
    ∧ (_request (fun _ => .response 401 false) (fun _ => 0)
        = ⟨.error .apiAuth, 1, []⟩
      ∧ requestRetryable .apiAuth = false
      ∧ requestRetryable .apiRateLimit = false
      ∧ defaultRetryable .apiAuth = true
      ∧ defaultRetryable .apiRateLimit = true) :=
  ⟨by decide, by decide,
    C6_retry_classification (fun _ => .response 401 false) (fun _ => 0)
      .apiAuth (by decide) (by decide)⟩

/-!
RateLimiter of error_handler.py. Wall-clock time is modelled as rational
seconds; time.sleep(d) advances the clock by exactly d, and each wait call
is given the clock at its entry.
-/

/-- RateLimiter state: the configured hourly ceiling, the derived minimum
inter-request interval, the issue time of the previous request, and the
request counter. -/
structure RateLimiter where
  requests_per_hour : ℚ
  request_interval : ℚ
  last_request_time : ℚ
  request_count : Nat
deriving Repr

/-- RateLimiter.__init__: interval is 3600 / requests_per_hour, last issue
time zero, counter zero. -/
def RateLimiter.init (requests_per_hour : ℚ) : RateLimiter :=
  ⟨requests_per_hour, 3600 / requests_per_hour, 0, 0⟩

/-- RateLimiter.wait, entered at the given clock time: when less than the
interval has elapsed since the previous issue time, sleep exactly the
remainder; then record the post-sleep clock as the new issue time and count
the request. Returns the new state and the issue time. -/
def RateLimiter.wait (rl : RateLimiter) (clock : ℚ) : RateLimiter × ℚ :=
  let time_since_last := clock - rl.last_request_time
  let clock2 := if time_since_last < rl.request_interval
    then clock + (rl.request_interval - time_since_last)
    else clock
  ({ rl with last_request_time := clock2,
             request_count := rl.request_count + 1 }, clock2)

/-- A sequence of wait calls: each list element is the time elapsing between
the previous issue and the next call; the result is the issue times. -/
def rateLimiterRun (rl : RateLimiter) (clock : ℚ) : List ℚ → List ℚ
  | [] => []
  | gap :: gaps =>
    let step := rl.wait (clock + gap)
    step.2 :: rateLimiterRun step.1 step.2 gaps

/-- Each issue time is at least the previous issue time plus the interval,
whatever the entry clock. -/
lemma wait_issue_ge (rl : RateLimiter) (clock : ℚ) :
    rl.last_request_time + rl.request_interval ≤ (rl.wait clock).2 := by
  unfold RateLimiter.wait
  by_cases h : clock - rl.last_request_time < rl.request_interval
  · simp only [h, if_true]
    linarith
  · simp only [h, if_false]
    linarith

/-- The issue times of a run form a chain spaced by the interval, anchored
at the previous issue time recorded in the entry state. -/
lemma rateLimiterRun_chain (gaps : List ℚ) :
    ∀ (rl : RateLimiter) (clock : ℚ),
    List.Chain (fun a b => a + rl.request_interval ≤ b)
      rl.last_request_time (rateLimiterRun rl clock gaps) := by
  induction gaps with
  | nil => intro rl clock; exact List.Chain.nil
  | cons gap gaps ih =>
    intro rl clock
    refine List.Chain.cons (wait_issue_ge rl (clock + gap)) ?_
    exact ih (rl.wait (clock + gap)).1 (rl.wait (clock + gap)).2

/-- C7 - the rate limiter spaces consecutive issue times at least
3600 / requests_per_hour apart: every run's issue times are a chain under
that spacing (anchored at the stored previous issue time), the interval of
a limiter built at ceiling 3600 is exactly 1 second, and in general the
interval is 3600 / requests_per_hour. -/
theorem C7_rate_limiter_spacing (rl : RateLimiter) (clock : ℚ)
    (gaps : List ℚ) :
    List.Chain (fun a b => a + rl.request_interval ≤ b)
      rl.last_request_time (rateLimiterRun rl clock gaps)
    ∧ List.Chain' (fun a b => a + rl.request_interval ≤ b)
        (rateLimiterRun rl clock gaps)
    ∧ (RateLimiter.init 3600).request_interval = 1
    ∧ (∀ rph : ℚ, (RateLimiter.init rph).request_interval = 3600 / rph) := by
  refine ⟨rateLimiterRun_chain gaps rl clock, ?_, by norm_num [RateLimiter.init],
    fun rph => rfl⟩
  cases gaps with
  | nil => exact List.chain'_nil
  | cons gap gaps =>
    show List.Chain' _ ((rl.wait (clock + gap)).2
      :: rateLimiterRun (rl.wait (clock + gap)).1 (rl.wait (clock + gap)).2 gaps)
    rw [List.chain'_cons']
    constructor
    · intro h hh
      have hchain := rateLimiterRun_chain gaps (rl.wait (clock + gap)).1
        (rl.wait (clock + gap)).2
      cases hgaps : rateLimiterRun (rl.wait (clock + gap)).1
          (rl.wait (clock + gap)).2 gaps with
      | nil => rw [hgaps] at hh; cases hh
      | cons x xs =>
        rw [hgaps] at hh hchain
        cases hchain with
        | cons hrel _ =>
          simp only [List.head?_cons, Option.mem_def, Option.some.injEq] at hh
          subst hh
          exact hrel
    · have hchain := rateLimiterRun_chain gaps (rl.wait (clock + gap)).1
        (rl.wait (clock + gap)).2
      have hch : List.Chain' (fun a b => a + rl.request_interval ≤ b)
          ((rl.wait (clock + gap)).1.last_request_time
            :: rateLimiterRun (rl.wait (clock + gap)).1
                 (rl.wait (clock + gap)).2 gaps) := hchain
      exact hch.tail

/-!
DataCollector.run of data_collector.py. The collaborators are oracles:
the outcome of _initialize_stations, of get_all_stations(enabled_only) as
(id, name) pairs, of sync_station_data per station id, and of the optional
optimization pass. The outer try of run wraps everything from
initialization through the loop and the optimization; its except clause
records a General error and falls through to the return. Wall-clock fields
of the stats dict are omitted - no claim touches them.
-/

/-- The statistics dict assembled by DataCollector.run. -/
structure RunStats where
  stations_processed : Nat
  stations_successful : Nat
  stations_failed : Nat
  sensors_processed : Nat
  measurements_added : Nat
  errors : List String
deriving DecidableEq, Repr

/-- One iteration of the per-station loop: count the station as processed,
then either accumulate the sync result and count a success, or record the
exception string and count a failure - the loop always continues. -/
def run_station_step (syncf : String → Except String (List (String × Nat)))
    (stats : RunStats) (station : String × String) : RunStats :=
  let stats1 := { stats with stations_processed := stats.stations_processed + 1 }
  match syncf station.1 with
  | .ok result =>
    { stats1 with
        sensors_processed := stats1.sensors_processed + result.length,
        measurements_added :=
          stats1.measurements_added + (result.map Prod.snd).sum,
        stations_successful := stats1.stations_successful + 1 }
  | .error e =>
    { stats1 with
        stations_failed := stats1.stations_failed + 1,
        errors := stats1.errors ++ ["Station " ++ station.2 ++ ": " ++ e] }

/-- DataCollector.run: initialize stations, enumerate enabled stations,
loop over them isolating per-station failures, optionally optimize, and
always return the stats - an exception escaping initialization or
enumeration is caught by the outer except clause, recorded as a General
error, and run still returns. -/
def run (init_result : Except String Unit)
    (enumerate : Except String (List (String × String)))
    (syncf : String → Except String (List (String × Nat)))
    (opt_enabled : Bool) (opt_result : Except String Unit) : RunStats :=
  let stats0 : RunStats := ⟨0, 0, 0, 0, 0, []⟩
  match init_result with
  | .error e => { stats0 with errors := stats0.errors ++ ["General: " ++ e] }
  | .ok _ =>
    match enumerate with
    | .error e => { stats0 with errors := stats0.errors ++ ["General: " ++ e] }
    | .ok stations =>
      let stats1 := stations.foldl (run_station_step syncf) stats0
      if opt_enabled then
        match opt_result with
        | .error e =>
          { stats1 with
              errors := stats1.errors ++ ["Database optimization: " ++ e] }
        | .ok _ => stats1
      else stats1

/-- The station loop counts exactly: every station is processed, a station
counts as successful precisely when its sync returned, as failed precisely
when its sync raised. -/
lemma run_foldl_counts (syncf : String → Except String (List (String × Nat)))
    (stations : List (String × String)) (stats : RunStats) :
    (stations.foldl (run_station_step syncf) stats).stations_processed
      = stats.stations_processed + stations.length
    ∧ (stations.foldl (run_station_step syncf) stats).stations_successful
      = stats.stations_successful
        + (stations.filter (fun s => (syncf s.1).isOk)).length
    ∧ (stations.foldl (run_station_step syncf) stats).stations_failed
      = stats.stations_failed
        + (stations.filter (fun s => !(syncf s.1).isOk)).length := by
  induction stations generalizing stats with
  | nil => simp
  | cons s stations ih =>
    rcases ih (run_station_step syncf stats s) with ⟨h1, h2, h3⟩
    rw [List.foldl_cons]
    have hstep : (run_station_step syncf stats s).stations_processed
          = stats.stations_processed + 1
        ∧ (run_station_step syncf stats s).stations_successful
          = stats.stations_successful
            + (if (syncf s.1).isOk then 1 else 0)
        ∧ (run_station_step syncf stats s).stations_failed
          = stats.stations_failed
            + (if (syncf s.1).isOk then 0 else 1) := by
      cases hs : syncf s.1 with
      | ok r => simp [run_station_step, hs, Except.isOk, Except.toBool]
      | error e => simp [run_station_step, hs, Except.isOk, Except.toBool]
    rcases hstep with ⟨g1, g2, g3⟩
    refine ⟨?_, ?_, ?_⟩
    · rw [h1, g1]
      simp only [List.length_cons]
      omega
    · rw [h2, g2]
      rw [List.filter_cons]
      by_cases hok : (syncf s.1).isOk <;> (simp [hok]; try omega)
    · rw [h3, g3]
      rw [List.filter_cons]
      by_cases hok : (syncf s.1).isOk <;> (simp [hok]; try omega)

/-- C3 counterexample - a failure outside the per-station loop does not
make run raise: with station enumeration failing, run catches the error,
records it as a General entry and returns the stats normally, refuting the
claimed raises-iff-outside-loop-error behaviour. -/
theorem C3_counterexample :
    run (.ok ()) (.error "boom") (fun _ => .ok []) false (.ok ())
      = ⟨0, 0, 0, 0, 0, ["General: boom"]⟩ := by
  rfl

/-- C3 amended - run always returns a statistics object and never raises:
per-station failures are isolated and counted (with three stations of which
only the second fails, stations_failed is 1 and stations_successful is 2),
and an error outside the per-station loop (initialization or enumeration)
is also caught and recorded as a General error rather than raised. -/
theorem C3_run_always_returns :
    (∀ (syncf : String → Except String (List (String × Nat)))
       (stations : List (String × String)) (ob : Bool)
       (orr : Except String Unit),
      (run (.ok ()) (.ok stations) syncf ob orr).stations_processed
        = stations.length
      ∧ (run (.ok ()) (.ok stations) syncf ob orr).stations_successful
        = (stations.filter (fun s => (syncf s.1).isOk)).length
      ∧ (run (.ok ()) (.ok stations) syncf ob orr).stations_failed
        = (stations.filter (fun s => !(syncf s.1).isOk)).length)
    ∧ (∀ (e : String) (enumerate : Except String (List (String × String)))
         (syncf : String → Except String (List (String × Nat)))
         (ob : Bool) (orr : Except String Unit),
        run (.error e) enumerate syncf ob orr
          = ⟨0, 0, 0, 0, 0, ["General: " ++ e]⟩)
    ∧ (∀ (e : String)
         (syncf : String → Except String (List (String × Nat)))
         (ob : Bool) (orr : Except String Unit),
        run (.ok ()) (.error e) syncf ob orr
          = ⟨0, 0, 0, 0, 0, ["General: " ++ e]⟩)
    ∧ (run (.ok ()) (.ok [("a", "A"), ("b", "B"), ("c", "C")])
          (fun sid => if sid == "b" then .error "x" else .ok [("s", 1)])
          false (.ok ())).stations_failed = 1
    ∧ (run (.ok ()) (.ok [("a", "A"), ("b", "B"), ("c", "C")])
          (fun sid => if sid == "b" then .error "x" else .ok [("s", 1)])
          false (.ok ())).stations_successful = 2 := by
  have hmain : ∀ (syncf : String → Except String (List (String × Nat)))
      (stations : List (String × String)) (ob : Bool)
      (orr : Except String Unit),
      (run (.ok ()) (.ok stations) syncf ob orr).stations_processed
        = stations.length
      ∧ (run (.ok ()) (.ok stations) syncf ob orr).stations_successful
        = (stations.filter (fun s => (syncf s.1).isOk)).length
      ∧ (run (.ok ()) (.ok stations) syncf ob orr).stations_failed
        = (stations.filter (fun s => !(syncf s.1).isOk)).length := by
    intro syncf stations ob orr
    rcases run_foldl_counts syncf stations ⟨0, 0, 0, 0, 0, []⟩ with ⟨h1, h2, h3⟩
    unfold run
    cases ob with
    | false => exact ⟨by simpa using h1, by simpa using h2, by simpa using h3⟩
    | true =>
      cases orr with
      | ok u => exact ⟨by simpa using h1, by simpa using h2, by simpa using h3⟩
      | error e =>
        exact ⟨by simpa using h1, by simpa using h2, by simpa using h3⟩
  refine ⟨hmain, fun e enumerate syncf ob orr => rfl,
    fun e syncf ob orr => rfl, ?_, ?_⟩
  · rcases hmain (fun sid => if sid == "b" then .error "x" else .ok [("s", 1)])
      [("a", "A"), ("b", "B"), ("c", "C")] false (.ok ()) with ⟨_, _, h3⟩
    rw [h3]
    rfl
  · rcases hmain (fun sid => if sid == "b" then .error "x" else .ok [("s", 1)])
      [("a", "A"), ("b", "B"), ("c", "C")] false (.ok ()) with ⟨_, h2, _⟩
    rw [h2]
    rfl

/-!
HMAC-SHA256 request signing - helpers.generate_signature and
FieldClimateAuth.__call__ of api_client.py. The hash is implemented
concretely: bytes are naturals below 256, 32-bit words are naturals reduced
modulo 2 to the 32, following FIPS 180-4, and str.encode is the UTF-8
codec. -/

/-- UTF-8 encoding of one code point. -/
def utf8EncodeCp (n : Nat) : List Nat :=
  if n < 0x80 then [n]
  else if n < 0x800 then [0xC0 + n / 0x40, 0x80 + n % 0x40]
  else if n < 0x10000 then
    [0xE0 + n / 0x1000, 0x80 + n / 0x40 % 0x40, 0x80 + n % 0x40]
  else
    [0xF0 + n / 0x40000, 0x80 + n / 0x1000 % 0x40,
     0x80 + n / 0x40 % 0x40, 0x80 + n % 0x40]

/-- Python str.encode of a string: its UTF-8 bytes. -/
def utf8Bytes (s : String) : List Nat :=
  s.data.flatMap (fun c => utf8EncodeCp c.toNat)

/-- Reduction to a 32-bit word. -/
def w32 (n : Nat) : Nat := n % 4294967296

/-- Right rotation of a 32-bit word. -/
def rotr32 (x n : Nat) : Nat := w32 (x >>> n ||| x <<< (32 - n))

/-- The Sigma-0 mixing function of the SHA-256 compression round. -/
def bSig0 (x : Nat) : Nat := rotr32 x 2 ^^^ rotr32 x 13 ^^^ rotr32 x 22

/-- The Sigma-1 mixing function of the SHA-256 compression round. -/
def bSig1 (x : Nat) : Nat := rotr32 x 6 ^^^ rotr32 x 11 ^^^ rotr32 x 25

/-- The sigma-0 mixing function of the SHA-256 message schedule. -/
def sSig0 (x : Nat) : Nat := rotr32 x 7 ^^^ rotr32 x 18 ^^^ (x >>> 3)

/-- The sigma-1 mixing function of the SHA-256 message schedule. -/
def sSig1 (x : Nat) : Nat := rotr32 x 17 ^^^ rotr32 x 19 ^^^ (x >>> 10)

/-- The choice function of SHA-256. -/
def ch32 (x y z : Nat) : Nat := (x &&& y) ^^^ ((x ^^^ 4294967295) &&& z)

/-- The majority function of SHA-256. -/
def maj32 (x y z : Nat) : Nat := (x &&& y) ^^^ (x &&& z) ^^^ (y &&& z)

/-- The 64 SHA-256 round constants. -/
def sha256K : List Nat :=
  [1116352408, 1899447441, 3049323471, 3921009573,
   961987163, 1508970993, 2453635748, 2870763221,
   3624381080, 310598401, 607225278, 1426881987,
   1925078388, 2162078206, 2614888103, 3248222580,
   3835390401, 4022224774, 264347078, 604807628,
   770255983, 1249150122, 1555081692, 1996064986,
   2554220882, 2821834349, 2952996808, 3210313671,
   3336571891, 3584528711, 113926993, 338241895,
   666307205, 773529912, 1294757372, 1396182291,
   1695183700, 1986661051, 2177026350, 2456956037,
   2730485921, 2820302411, 3259730800, 3345764771,
   3516065817, 3600352804, 4094571909, 275423344,
   430227734, 506948616, 659060556, 883997877,
   958139571, 1322822218, 1537002063, 1747873779,
   1955562222, 2024104815, 2227730452, 2361852424,
   2428436474, 2756734187, 3204031479, 3329325298]

/-- The SHA-256 initial hash state. -/
def sha256H0 : List Nat :=
  [0x6a09e667, 0xbb67ae85, 0x3c6ef372, 0xa54ff53a,
   0x510e527f, 0x9b05688c, 0x1f83d9ab, 0x5be0cd19]

/-- A 64-bit length as 8 big-endian bytes. -/
def bytesBE8 (n : Nat) : List Nat :=
  [n / 72057594037927936 % 256, n / 281474976710656 % 256,
   n / 1099511627776 % 256, n / 4294967296 % 256,
   n / 16777216 % 256, n / 65536 % 256, n / 256 % 256, n % 256]

/-- SHA-256 padding: one 0x80 byte, zeros to 56 modulo 64, then the bit
length as 8 big-endian bytes. -/
def sha256Pad (msg : List Nat) : List Nat :=
  msg ++ [0x80] ++ List.replicate ((119 - msg.length % 64) % 64) 0
    ++ bytesBE8 (8 * msg.length)

/-- Split a byte list into 64-byte blocks, fuel-bounded by the length. -/
def toBlocks : Nat → List Nat → List (List Nat)
  | 0, _ => []
  | _, [] => []
  | fuel + 1, bs => bs.take 64 :: toBlocks fuel (bs.drop 64)

/-- One big-endian 32-bit word from four bytes. -/
def word4 : List Nat → Nat
  | [a, b, c, d] => a * 16777216 + b * 65536 + c * 256 + d
  | _ => 0

/-- The sixteen initial schedule words of a 64-byte block. -/
def bytesToWords : Nat → List Nat → List Nat
  | 0, _ => []
  | _, [] => []
  | fuel + 1, bs => word4 (bs.take 4) :: bytesToWords fuel (bs.drop 4)

/-- Extend sixteen schedule words to sixty-four. -/
def extendSchedule (w16 : List Nat) : List Nat :=
  (List.range 48).foldl
    (fun w _ =>
      let n := w.length
      w ++ [w32 (sSig1 (w.getD (n - 2) 0) + w.getD (n - 7) 0
        + sSig0 (w.getD (n - 15) 0) + w.getD (n - 16) 0)])
    w16

/-- One SHA-256 round on the eight-word working state. -/
def compressStep (k wt : Nat) (s : List Nat) : List Nat :=
  match s with
  | [a, b, c, d, e, f, g, h] =>
    let t1 := w32 (h + bSig1 e + ch32 e f g + k + wt)
    let t2 := w32 (bSig0 a + maj32 a b c)
    [w32 (t1 + t2), a, b, c, w32 (d + t1), e, f, g]
  | other => other

/-- Compress one 64-byte block into the running hash state. -/
def compressBlock (h : List Nat) (block : List Nat) : List Nat :=
  let w := extendSchedule (bytesToWords 64 block)
  let s := (List.zip sha256K w).foldl
    (fun s kw => compressStep kw.1 kw.2 s) h
  List.zipWith (fun x y => w32 (x + y)) h s

/-- SHA-256 of a byte list, as its 32 digest bytes. -/
def sha256 (msg : List Nat) : List Nat :=
  let padded := sha256Pad msg
  let hh := (toBlocks padded.length padded).foldl compressBlock sha256H0
  hh.flatMap (fun x => [x / 16777216 % 256, x / 65536 % 256, x / 256 % 256, x % 256])

/-- HMAC-SHA256 over byte lists, block size 64. -/
def hmacSha256 (key msg : List Nat) : List Nat :=
  let k1 := if 64 < key.length then sha256 key else key
  let k2 := k1 ++ List.replicate (64 - k1.length) 0
  sha256 ((k2.map (fun b => b ^^^ 0x5c))
    ++ sha256 ((k2.map (fun b => b ^^^ 0x36)) ++ msg))

/-- A half byte as a lowercase hex character. -/
def hexDigit (n : Nat) : Char :=
  if n < 10 then Char.ofNat (48 + n) else Char.ofNat (87 + n)

/-- Bytes as the lowercase hex string of hexdigest. -/
def toHexStr (bytes : List Nat) : String :=
  ⟨bytes.flatMap (fun b => [hexDigit (b / 16), hexDigit (b % 16)])⟩

/-- helpers.generate_signature: HMAC-SHA256 keyed by the private key over
the concatenation method, path, timestamp, content, as a hex digest. -/
def generate_signature (method path : String) (timestamp : Int)
    (private_key : String) (content : String) : String :=
  toHexStr (hmacSha256 (utf8Bytes private_key)
    (utf8Bytes (method ++ path ++ toString timestamp ++ content)))

/-- Python str.upper restricted to ASCII letters, applied characterwise -
the HTTP method names the source upper-cases are ASCII. -/
def pyUpperChar (c : Char) : Char :=
  if 97 <= c.toNat && c.toNat <= 122 then Char.ofNat (c.toNat - 32) else c

/-- Python str.upper of a method name. -/
def pyUpper (s : String) : String :=
  ⟨s.data.map pyUpperChar⟩

/-- The two headers attached by FieldClimateAuth.__call__. -/
structure AuthHeaders where
  date : String
  authorization : String
deriving DecidableEq, Repr

/-- FieldClimateAuth.__call__: signs the concatenation of the upper-cased
method, the api path, the Date header value and the PUBLIC KEY with
HMAC-SHA256 keyed by the private key, and attaches
Authorization: hmac public:signature plus the Date header. -/
def fieldClimateAuthHeaders (api_path public_key private_key method
    date_stamp : String) : AuthHeaders :=
  let msg := pyUpper method ++ api_path ++ date_stamp ++ public_key
  let signature := toHexStr (hmacSha256 (utf8Bytes private_key)
    (utf8Bytes msg))
  ⟨date_stamp, "hmac " ++ public_key ++ ":" ++ signature⟩

set_option maxRecDepth 40000 in
/-- C8 counterexample - the signature the authenticator attaches is not the
HMAC-SHA256 of method + path + timestamp alone: at method GET, path /x,
Date value D, public key P and secret k, the attached Authorization header
differs from the one built from the claimed message, because the signed
message also embeds the public key. -/
theorem C8_counterexample :
    fieldClimateAuthHeaders "/x" "P" "k" "GET" "D"
      ≠ ⟨"D", "hmac " ++ "P" ++ ":"
          ++ toHexStr (hmacSha256 (utf8Bytes "k")
               (utf8Bytes ("GET" ++ "/x" ++ "D")))⟩ := by
  decide

/-- C8 amended - the authenticator signs, with HMAC-SHA256 keyed by the
secret, exactly the concatenation of the upper-cased method, the path, the
timestamp header value and the PUBLIC KEY; the generate_signature helper
(the write-capable variant) signs exactly method + path + timestamp + body
with no further component. -/
theorem C8_signed_message (method api_path date_stamp public_key
    private_key content : String) (timestamp : Int) :
    fieldClimateAuthHeaders api_path public_key private_key method date_stamp
      = ⟨date_stamp, "hmac " ++ public_key ++ ":"
          ++ toHexStr (hmacSha256 (utf8Bytes private_key)
               (utf8Bytes (pyUpper method ++ api_path ++ date_stamp
                 ++ public_key)))⟩
    ∧ generate_signature method api_path timestamp private_key content
      = toHexStr (hmacSha256 (utf8Bytes private_key)
          (utf8Bytes (method ++ api_path ++ toString timestamp ++ content))) :=
  ⟨rfl, rfl⟩

/-!
models.json_serializer and json_deserializer, with the stdlib json module
modelled concretely on the JSON-representable values the metadata blobs
use: None, bools, ints, floats, strings, lists and dicts. json.dumps
follows the defaults: ensure_ascii True, allow_nan True, separators a
comma and a colon each followed by one space, insertion order kept;
json.loads is a strict recursive-descent JSON reader accepting the number
grammar of NUMBER_RE (fraction and exponent included) and the constants
NaN, Infinity and -Infinity, building dicts by successive key assignment.
Keys of a Python dict are modelled as strings or ints; json.dumps coerces
an int key to its decimal string. Two boundaries of the model, on which no
theorem depends: a numeric literal with fraction or exponent is carried as
its exact decimal rational (the rounding to the nearest binary double and
the shortest-repr printing of CPython are abstracted, so no round trip is
claimed for floats), and a lone-surrogate string escape, which Python
keeps as an unpaired surrogate in the str, has no counterpart in a Lean
String and is rejected by the modelled reader rather than decoded.
-/

/-- A key of a Python dict in the modelled fragment. -/
inductive PyKey where
  | str (s : String)
  | int (n : Int)
deriving DecidableEq, Repr

/-- A Python float as the json module handles it: the special values the
module spells NaN, Infinity and -Infinity, and a finite value carried as
the exact decimal rational of its literal - the rounding of that decimal
to the nearest binary double is abstracted, and no theorem of this file
depends on the value or printed form of a finite float. -/
inductive PyFloat where
  | nan
  | inf
  | ninf
  | val (q : ℚ)
deriving Repr

/-- A Python value of the modelled JSON-representable fragment. -/
inductive PyVal where
  | none
  | bool (b : Bool)
  | int (n : Int)
  | float (f : PyFloat)
  | str (s : String)
  | list (xs : List PyVal)
  | dict (kvs : List (PyKey × PyVal))
deriving Repr

/-- Little-endian decimal digits of a positive natural, fuel-bounded. -/
def natDigitsRev : Nat → Nat → List Nat
  | 0, _ => []
  | _, 0 => []
  | fuel + 1, n + 1 => (n + 1) % 10 :: natDigitsRev fuel ((n + 1) / 10)

/-- Decimal characters of a natural number. -/
def natToChars (n : Nat) : List Char :=
  if n = 0 then ['0']
  else ((natDigitsRev n n).reverse).map (fun d => Char.ofNat (48 + d))

/-- Python str of an int: decimal characters, minus sign when negative. -/
def intToChars : Int → List Char
  | .ofNat m => natToChars m
  | .negSucc m => '-' :: natToChars (m + 1)

/-- Digits of a fractional part r over d by long division, fuel-bounded
as a stand-in for the 17 significant digits of repr. -/
def fracDigits : Nat → Nat → Nat → List Char
  | 0, _, _ => []
  | fuel + 1, r, d =>
    if r = 0 then []
    else Char.ofNat (48 + r * 10 / d) :: fracDigits fuel (r * 10 % d) d

/-- A float as json.dumps writes it: the allow_nan spellings NaN, Infinity
and -Infinity, and a finite value in plain decimal - the shortest-repr
search of CPython is abstracted as exact long division, and no theorem
depends on this form. -/
def pyFloatRepr : PyFloat → List Char
  | .nan => ['N', 'a', 'N']
  | .inf => ['I', 'n', 'f', 'i', 'n', 'i', 't', 'y']
  | .ninf => '-' :: ['I', 'n', 'f', 'i', 'n', 'i', 't', 'y']
  | .val q =>
    (if q < 0 then ['-'] else []) ++ natToChars (q.num.natAbs / q.den)
      ++ '.' :: (if q.num.natAbs % q.den = 0 then ['0']
        else fracDigits 17 (q.num.natAbs % q.den) q.den)

/-- str of a float: the special values spell lowercase, a finite value as
its repr. -/
def pyFloatStr : PyFloat → List Char
  | .nan => ['n', 'a', 'n']
  | .inf => ['i', 'n', 'f']
  | .ninf => '-' :: ['i', 'n', 'f']
  | .val q => pyFloatRepr (.val q)

/-- Four lowercase hex characters of a value below 65536. -/
def hex4 (n : Nat) : List Char :=
  [hexDigit (n / 4096 % 16), hexDigit (n / 256 % 16),
   hexDigit (n / 16 % 16), hexDigit (n % 16)]

/-- The escape of one code point in a json.dumps string literal with
ensure_ascii: the two-character escapes, then u-escapes for other control
and non-ASCII characters (a surrogate pair beyond the basic plane), and
printable ASCII as itself. -/
def jsonEscapeChar (c : Nat) : List Char :=
  if c = 34 then ['\\', '"']
  else if c = 92 then ['\\', '\\']
  else if c = 8 then ['\\', 'b']
  else if c = 12 then ['\\', 'f']
  else if c = 10 then ['\\', 'n']
  else if c = 13 then ['\\', 'r']
  else if c = 9 then ['\\', 't']
  else if c < 32 ∨ 127 ≤ c then
    if c < 65536 then '\\' :: 'u' :: hex4 c
    else ('\\' :: 'u' :: hex4 (55296 + (c - 65536) / 1024))
      ++ ('\\' :: 'u' :: hex4 (56320 + (c - 65536) % 1024))
  else [Char.ofNat c]

/-- A json.dumps string literal: quotes around the escaped content. -/
def jsonQuoteString (s : String) : List Char :=
  '"' :: s.data.flatMap (fun ch => jsonEscapeChar ch.toNat) ++ ['"']

/-- A json.dumps dict key: a string key as a string literal, an int key
coerced to its quoted decimal string. -/
def printKey : PyKey → List Char
  | .str s => jsonQuoteString s
  | .int n => '"' :: intToChars n ++ ['"']

mutual

/-- json.dumps of a value of the fragment, as characters. -/
def printVal : PyVal → List Char
  | .none => ['n', 'u', 'l', 'l']
  | .bool b =>
    if b then ['t', 'r', 'u', 'e'] else ['f', 'a', 'l', 's', 'e']
  | .int n => intToChars n
  | .float f => pyFloatRepr f
  | .str s => jsonQuoteString s
  | .list xs => '[' :: (printItems xs ++ [']'])
  | .dict kvs => '\x7b' :: (printEntries kvs ++ ['\x7d'])

/-- The comma-space separated items of a dumped list. -/
def printItems : List PyVal → List Char
  | [] => []
  | [x] => printVal x
  | x :: y :: xs => printVal x ++ (',' :: ' ' :: printItems (y :: xs))

/-- The comma-space separated key-colon-space-value entries of a dumped
dict. -/
def printEntries : List (PyKey × PyVal) → List Char
  | [] => []
  | [(k, v)] => printKey k ++ (':' :: ' ' :: printVal v)
  | (k, v) :: kv :: kvs =>
    printKey k ++ (':' :: ' ' :: printVal v)
      ++ (',' :: ' ' :: printEntries (kv :: kvs))

end

/-- Python str of a scalar, as json_serializer falls back to it: str(None)
is None, str of a bool is True or False, an int its decimal, a string
itself; containers never reach this branch. -/
def pyStr : PyVal → String
  | .none => "None"
  | .bool true => "True"
  | .bool false => "False"
  | .int n => ⟨intToChars n⟩
  | .float f => ⟨pyFloatStr f⟩
  | .str s => s
  | .list xs => ⟨printVal (.list xs)⟩
  | .dict kvs => ⟨printVal (.dict kvs)⟩

/-- models.json_serializer: dicts and lists through json.dumps, anything
else through str. -/
def json_serializer (v : PyVal) : String :=
  match v with
  | .dict _ => ⟨printVal v⟩
  | .list _ => ⟨printVal v⟩
  | _ => pyStr v

/-- Skip JSON whitespace. -/
def skipWs : List Char → List Char
  | [] => []
  | c :: cs =>
    if c = ' ' ∨ c = '\t' ∨ c = '\n' ∨ c = '\r' then skipWs cs
    else c :: cs

/-- The value of one hex character. -/
def hexVal (c : Char) : Option Nat :=
  if 48 ≤ c.toNat ∧ c.toNat ≤ 57 then some (c.toNat - 48)
  else if 97 ≤ c.toNat ∧ c.toNat ≤ 102 then some (c.toNat - 87)
  else if 65 ≤ c.toNat ∧ c.toNat ≤ 70 then some (c.toNat - 55)
  else Option.none

/-- The value of four hex characters. -/
def hex4Val (a b c d : Char) : Option Nat := do
  let x1 ← hexVal a
  let x2 ← hexVal b
  let x3 ← hexVal c
  let x4 ← hexVal d
  pure (4096 * x1 + 256 * x2 + 16 * x3 + x4)

/-- Prepend a decoded character to a string-body parse. -/
def consCh (c : Char) (o : Option (List Char × List Char)) :
    Option (List Char × List Char) :=
  o.map (fun p => (c :: p.1, p.2))

/-- Decode the low-surrogate escape that must follow a high surrogate of
value n, then continue with cont: the continuation-passing tail of the
string-body reader. -/
def parseUPair (n : Nat) (cont : List Char → Option (List Char × List Char)) :
    List Char → Option (List Char × List Char)
  | b1 :: u1 :: g1 :: g2 :: g3 :: g4 :: r3 =>
    if b1 = '\\' ∧ u1 = 'u' then
      (hex4Val g1 g2 g3 g4).bind (fun m =>
        if 56320 ≤ m ∧ m < 57344 then
          consCh (Char.ofNat (65536 + (n - 55296) * 1024 + (m - 56320)))
            (cont r3)
        else Option.none)
    else Option.none
  | _ => Option.none

/-- Decode a u-escape: four hex digits, a basic-plane value taken as is
(a lone low surrogate rejected), a high surrogate continued by its pair. -/
def parseUEsc (cont : List Char → Option (List Char × List Char)) :
    List Char → Option (List Char × List Char)
  | h1 :: h2 :: h3 :: h4 :: r2 =>
    (hex4Val h1 h2 h3 h4).bind (fun n =>
      if n < 55296 ∨ 57344 ≤ n then consCh (Char.ofNat n) (cont r2)
      else if n < 56320 then parseUPair n cont r2
      else Option.none)
  | _ => Option.none

/-- Decode one backslash escape and continue with cont. -/
def parseEsc (cont : List Char → Option (List Char × List Char)) :
    List Char → Option (List Char × List Char)
  | [] => Option.none
  | e :: r =>
    if e = '"' then consCh '"' (cont r)
    else if e = '\\' then consCh '\\' (cont r)
    else if e = '/' then consCh '/' (cont r)
    else if e = 'b' then consCh (Char.ofNat 8) (cont r)
    else if e = 'f' then consCh (Char.ofNat 12) (cont r)
    else if e = 'n' then consCh '\n' (cont r)
    else if e = 'r' then consCh (Char.ofNat 13) (cont r)
    else if e = 't' then consCh '\t' (cont r)
    else if e = 'u' then parseUEsc cont r
    else Option.none

/-- Parse the body of a JSON string literal up to its closing quote:
escapes decoded, raw control characters rejected (strict mode). The fuel
bounds the number of content characters; one unit is spent per decoded
character, so any fuel above the content length suffices. -/
def parseStringBody : Nat → List Char → Option (List Char × List Char)
  | 0, _ => Option.none
  | _, [] => Option.none
  | fuel + 1, c :: rest =>
    if c = '"' then some ([], rest)
    else if c = '\\' then parseEsc (fun cs => parseStringBody fuel cs) rest
    else if c.toNat < 32 then Option.none
    else consCh c (parseStringBody fuel rest)

/-- Split the leading decimal-digit run. -/
def splitDigits : List Char → List Char × List Char
  | [] => ([], [])
  | c :: cs =>
    if 48 ≤ c.toNat ∧ c.toNat ≤ 57 then
      let r := splitDigits cs
      (c :: r.1, r.2)
    else ([], c :: cs)

/-- The natural number of a decimal-digit run. -/
def digitsToNat (ds : List Char) : Nat :=
  ds.foldl (fun a c => 10 * a + (c.toNat - 48)) 0

/-- Whether a character list starts with the given character. -/
def headIs (c : Char) : List Char → Bool
  | d :: _ => d == c
  | [] => false

/-- The optional fraction group of NUMBER_RE: a dot followed by at least
one digit, else nothing is consumed (a bare dot ends the number before
it). Returns the fraction digits and the residue. -/
def parseFracPart (cs : List Char) : List Char × List Char :=
  if headIs '.' cs then
    match splitDigits cs.tail with
    | ([], _) => ([], cs)
    | (ds, rest) => (ds, rest)
  else ([], cs)

/-- The optional exponent group of NUMBER_RE: e or E, an optional sign,
then at least one digit, else nothing is consumed. Returns the exponent
value if present and the residue. -/
def parseExpPart (cs : List Char) : Option Int × List Char :=
  if headIs 'e' cs ∨ headIs 'E' cs then
    match cs.tail with
    | '+' :: cs2 =>
      (match splitDigits cs2 with
       | ([], _) => (Option.none, cs)
       | (ds, rest) => (some ((digitsToNat ds : Int)), rest))
    | '-' :: cs2 =>
      (match splitDigits cs2 with
       | ([], _) => (Option.none, cs)
       | (ds, rest) => (some (-(digitsToNat ds : Int)), rest))
    | cs2 =>
      (match splitDigits cs2 with
       | ([], _) => (Option.none, cs)
       | (ds, rest) => (some ((digitsToNat ds : Int)), rest))
  else (Option.none, cs)

/-- Parse an unsigned JSON number as the json module converts a NUMBER_RE
match: a nonempty digit run with no leading zero, an optional fraction and
an optional exponent; an int when both are absent, else a float whose
value is the exact decimal of the literal. -/
def parseUNumber (cs : List Char) : Option (PyVal × List Char) :=
  match splitDigits cs with
  | ([], _) => Option.none
  | (d :: ds, rest0) =>
    if d = '0' ∧ ds ≠ [] then Option.none
    else
      match parseFracPart rest0 with
      | (fds, rest1) =>
        match parseExpPart rest1 with
        | (oe, rest2) =>
          if fds = [] ∧ oe = Option.none then
            some (.int ((digitsToNat (d :: ds) : Int)), rest2)
          else
            some (.float (.val (((digitsToNat ((d :: ds) ++ fds)) : ℚ)
              * (10 : ℚ) ^ ((oe.getD 0) - (fds.length : Int)))), rest2)

/-- Negate a parsed number, for a leading minus sign. -/
def pyNegNum : PyVal → PyVal
  | .int n => .int (-n)
  | .float (.val q) => .float (.val (-q))
  | v => v

/-- Parse a JSON number with optional minus sign. -/
def parseNumber : List Char → Option (PyVal × List Char)
  | [] => Option.none
  | c :: rest =>
    if c = '-' then (parseUNumber rest).map (fun p => (pyNegNum p.1, p.2))
    else parseUNumber (c :: rest)

/-- Python dict assignment: overwrite the value of an existing key in
place, else append the new entry. -/
def dictAssign (kvs : List (PyKey × PyVal)) (k : PyKey) (v : PyVal) :
    List (PyKey × PyVal) :=
  if kvs.any (fun kv => kv.1 == k) then
    kvs.map (fun kv => if kv.1 == k then (kv.1, v) else kv)
  else kvs ++ [(k, v)]

/-- Build a dict from parsed entries by successive assignment, as the json
decoder does. -/
def buildDict (entries : List (String × PyVal)) : List (PyKey × PyVal) :=
  entries.foldl (fun acc e => dictAssign acc (.str e.1) e.2) []

mutual

/-- Parse one JSON value of the fragment, fuel-bounded on nesting. -/
def parseVal : Nat → List Char → Option (PyVal × List Char)
  | 0, _ => Option.none
  | fuel + 1, cs =>
    match skipWs cs with
    | [] => Option.none
    | c :: rest =>
      if c = 'n' then
        match rest with
        | 'u' :: 'l' :: 'l' :: r => some (.none, r)
        | _ => Option.none
      else if c = 't' then
        match rest with
        | 'r' :: 'u' :: 'e' :: r => some (.bool true, r)
        | _ => Option.none
      else if c = 'f' then
        match rest with
        | 'a' :: 'l' :: 's' :: 'e' :: r => some (.bool false, r)
        | _ => Option.none
      else if c = '"' then
        (parseStringBody fuel rest).map (fun p => (.str ⟨p.1⟩, p.2))
      else if c = '[' then
        let r := skipWs rest
        if headIs ']' r then some (.list [], r.tail)
        else (parseItems fuel r).map (fun p => (.list p.1, p.2))
      else if c = '\x7b' then
        let r := skipWs rest
        if headIs '\x7d' r then some (.dict [], r.tail)
        else (parseEntries fuel r).map (fun p => (.dict (buildDict p.1), p.2))
      else if c = 'N' then
        match rest with
        | 'a' :: 'N' :: r => some (.float .nan, r)
        | _ => Option.none
      else if c = 'I' then
        match rest with
        | 'n' :: 'f' :: 'i' :: 'n' :: 'i' :: 't' :: 'y' :: r =>
          some (.float .inf, r)
        | _ => Option.none
      else if c = '-' ∧ headIs 'I' rest then
        match rest with
        | 'I' :: 'n' :: 'f' :: 'i' :: 'n' :: 'i' :: 't' :: 'y' :: r =>
          some (.float .ninf, r)
        | _ => Option.none
      else parseNumber (c :: rest)

/-- Parse the nonempty comma-separated items of a list up to the closing
bracket. -/
def parseItems : Nat → List Char → Option (List PyVal × List Char)
  | 0, _ => Option.none
  | fuel + 1, cs =>
    match parseVal fuel cs with
    | Option.none => Option.none
    | some (v, rest) =>
      match skipWs rest with
      | ',' :: rest2 => (parseItems fuel rest2).map (fun p => (v :: p.1, p.2))
      | ']' :: rest2 => some ([v], rest2)
      | _ => Option.none

/-- Parse the nonempty comma-separated entries of an object up to the
closing brace. -/
def parseEntries : Nat → List Char →
    Option (List (String × PyVal) × List Char)
  | 0, _ => Option.none
  | fuel + 1, cs =>
    match skipWs cs with
    | '"' :: rest =>
      match parseStringBody fuel rest with
      | Option.none => Option.none
      | some (kcs, rest1) =>
        match skipWs rest1 with
        | ':' :: rest2 =>
          match parseVal fuel rest2 with
          | Option.none => Option.none
          | some (v, rest3) =>
            match skipWs rest3 with
            | ',' :: rest4 =>
              (parseEntries fuel rest4).map
                (fun p => ((⟨kcs⟩, v) :: p.1, p.2))
            | '\x7d' :: rest4 => some ([(⟨kcs⟩, v)], rest4)
            | _ => Option.none
        | _ => Option.none
    | _ => Option.none

end

/-- json.loads restricted to the fragment: parse one value with fuel ample
for any input of this length, then require only whitespace to remain. -/
def json_loads (s : String) : Option PyVal :=
  match parseVal (s.length + 1) s.data with
  | some (v, rest) => if skipWs rest = [] then some v else Option.none
  | Option.none => Option.none

/-- What json_deserializer can return: Python None, a parsed value, or the
original text. -/
inductive DeserOut where
  | noneOut
  | val (v : PyVal)
  | text (s : String)
deriving Repr

/-- models.json_deserializer: None on a missing or empty text, the parsed
value when the text is valid JSON, the text itself otherwise (the
JSONDecodeError fallback). -/
def json_deserializer (t : Option String) : DeserOut :=
  match t with
  | Option.none => .noneOut
  | some s =>
    if s = "" then .noneOut
    else
      match json_loads s with
      | some v => .val v
      | Option.none => .text s

/-! Round-trip lemmas: parsing the printed form recovers the value. -/

/-- Char.ofNat of a valid code point has that code point as toNat. -/
lemma toNat_charOfNat (m : Nat) (h : Nat.isValidChar m) :
    (Char.ofNat m).toNat = m := by
  rw [Char.ofNat, dif_pos h]
  rfl

/-- The code point of a char is below the surrogates, or above them and
below the plane limit. -/
lemma char_toNat_valid (c : Char) :
    c.toNat < 55296 ∨ (57344 ≤ c.toNat ∧ c.toNat < 1114112) := by
  rcases c.valid with h | h
  · left
    exact h
  · right
    exact h

/-- A char is determined by its code point. -/
lemma char_eq_of_toNat (c : Char) (m : Nat) (h : c.toNat = m) :
    c = Char.ofNat m := by
  rw [← h, Char.ofNat_toNat]

/-- hexVal undoes hexDigit on a half byte. -/
lemma hexVal_hexDigit (d : Nat) (h : d < 16) : hexVal (hexDigit d) = some d := by
  interval_cases d <;> rfl

/-- hex4Val undoes hex4 on a value below 65536. -/
lemma parse_hex4 (n : Nat) (h : n < 65536) :
    hex4Val (hexDigit (n / 4096 % 16)) (hexDigit (n / 256 % 16))
      (hexDigit (n / 16 % 16)) (hexDigit (n % 16)) = some n := by
  rw [hex4Val]
  rw [hexVal_hexDigit _ (by omega), hexVal_hexDigit _ (by omega),
    hexVal_hexDigit _ (by omega), hexVal_hexDigit _ (by omega)]
  show some _ = some n
  congr 1
  omega




/-- Binding a present option applies the function. -/
lemma option_bind_some {α β : Type} (a : α) (f : α → Option β) :
    (some a).bind f = f a := rfl

/-- The string-body reader on a closing quote. -/
lemma psb_quote (fuel : Nat) (rest : List Char) :
    parseStringBody (fuel + 1) ('"' :: rest) = some ([], rest) := rfl

/-- The string-body reader hands a backslash to the escape reader. -/
lemma psb_backslash (fuel : Nat) (rest : List Char) :
    parseStringBody (fuel + 1) ('\\' :: rest)
      = parseEsc (fun cs => parseStringBody fuel cs) rest := rfl

/-- The string-body reader keeps a plain character. -/
lemma psb_plain (fuel : Nat) (c : Char) (rest : List Char)
    (h1 : c ≠ '"') (h2 : c ≠ '\\') (h3 : ¬ c.toNat < 32) :
    parseStringBody (fuel + 1) (c :: rest)
      = consCh c (parseStringBody fuel rest) := by
  simp only [parseStringBody]
  rw [if_neg h1, if_neg h2, if_neg h3]

/-- The escape reader on a u escape. -/
lemma pesc_u (cont : List Char → Option (List Char × List Char))
    (r : List Char) : parseEsc cont ('u' :: r) = parseUEsc cont r := rfl

/-- The u-escape reader on four digit characters. -/
lemma puesc_eq (cont : List Char → Option (List Char × List Char))
    (h1 h2 h3 h4 : Char) (r2 : List Char) :
    parseUEsc cont (h1 :: h2 :: h3 :: h4 :: r2)
      = (hex4Val h1 h2 h3 h4).bind (fun n =>
          if n < 55296 ∨ 57344 ≤ n then consCh (Char.ofNat n) (cont r2)
          else if n < 56320 then parseUPair n cont r2
          else Option.none) := rfl

/-- The pair reader on a second u escape. -/
lemma pupair_eq (n : Nat) (cont : List Char → Option (List Char × List Char))
    (g1 g2 g3 g4 : Char) (r3 : List Char) :
    parseUPair n cont ('\\' :: 'u' :: g1 :: g2 :: g3 :: g4 :: r3)
      = (hex4Val g1 g2 g3 g4).bind (fun m =>
          if 56320 ≤ m ∧ m < 57344 then
            consCh (Char.ofNat (65536 + (n - 55296) * 1024 + (m - 56320)))
              (cont r3)
          else Option.none) := rfl

/-- Parsing one escaped basic-plane code point below 65536. -/
lemma parse_escape_u_bmp (fuel : Nat) (n : Nat) (tail : List Char)
    (h16 : n < 65536) (hns : n < 55296 ∨ 57344 ≤ n) :
    parseStringBody (fuel + 1)
        ('\\' :: 'u' :: hexDigit (n / 4096 % 16) :: hexDigit (n / 256 % 16)
          :: hexDigit (n / 16 % 16) :: hexDigit (n % 16) :: tail)
      = consCh (Char.ofNat n) (parseStringBody fuel tail) := by
  rw [psb_backslash, pesc_u, puesc_eq, parse_hex4 n h16, option_bind_some]
  rw [if_pos hns]

/-- Parsing one escaped surrogate pair. -/
lemma parse_escape_u_pair (fuel : Nat) (t : Nat) (tail : List Char)
    (hbig : 65536 ≤ t) (hval : t < 1114112) :
    parseStringBody (fuel + 1)
        ('\\' :: 'u' :: hexDigit ((55296 + (t - 65536) / 1024) / 4096 % 16)
          :: hexDigit ((55296 + (t - 65536) / 1024) / 256 % 16)
          :: hexDigit ((55296 + (t - 65536) / 1024) / 16 % 16)
          :: hexDigit ((55296 + (t - 65536) / 1024) % 16)
          :: '\\' :: 'u' :: hexDigit ((56320 + (t - 65536) % 1024) / 4096 % 16)
          :: hexDigit ((56320 + (t - 65536) % 1024) / 256 % 16)
          :: hexDigit ((56320 + (t - 65536) % 1024) / 16 % 16)
          :: hexDigit ((56320 + (t - 65536) % 1024) % 16) :: tail)
      = consCh (Char.ofNat t) (parseStringBody fuel tail) := by
  have hdq : (t - 65536) / 1024 < 1024 := by omega
  have hdm : (t - 65536) % 1024 < 1024 := Nat.mod_lt _ (by omega)
  have hhi16 : 55296 + (t - 65536) / 1024 < 65536 := by omega
  have hlo16 : 56320 + (t - 65536) % 1024 < 65536 := by omega
  rw [psb_backslash, pesc_u, puesc_eq, parse_hex4 _ hhi16, option_bind_some]
  rw [if_neg (by omega : ¬ (55296 + (t - 65536) / 1024 < 55296
      ∨ 57344 ≤ 55296 + (t - 65536) / 1024))]
  rw [if_pos (by omega : 55296 + (t - 65536) / 1024 < 56320)]
  rw [pupair_eq, parse_hex4 _ hlo16, option_bind_some]
  rw [if_pos (by omega : 56320 ≤ 56320 + (t - 65536) % 1024
      ∧ 56320 + (t - 65536) % 1024 < 57344)]
  have harg : 65536 + (55296 + (t - 65536) / 1024 - 55296) * 1024
      + (56320 + (t - 65536) % 1024 - 56320) = t := by
    have := Nat.div_add_mod (t - 65536) 1024
    omega
  rw [harg]

/-- Parsing one escaped character: the string-body reader consumes the
escape of any char and yields that char, spending one unit of fuel. -/
lemma parse_escape (c : Char) (fuel : Nat) (tail : List Char) :
    parseStringBody (fuel + 1) (jsonEscapeChar c.toNat ++ tail)
      = consCh c (parseStringBody fuel tail) := by
  have hv := char_toNat_valid c
  by_cases h34 : c.toNat = 34
  · have hc : c = '"' := (char_eq_of_toNat c 34 h34).trans (by decide)
    subst hc
    rfl
  by_cases h92 : c.toNat = 92
  · have hc : c = '\\' := (char_eq_of_toNat c 92 h92).trans (by decide)
    subst hc
    rfl
  by_cases h8 : c.toNat = 8
  · have hc : c = Char.ofNat 8 := char_eq_of_toNat c 8 h8
    subst hc
    rfl
  by_cases h12 : c.toNat = 12
  · have hc : c = Char.ofNat 12 := char_eq_of_toNat c 12 h12
    subst hc
    rfl
  by_cases h10 : c.toNat = 10
  · have hc : c = '\n' := (char_eq_of_toNat c 10 h10).trans (by decide)
    subst hc
    rfl
  by_cases h13 : c.toNat = 13
  · have hc : c = Char.ofNat 13 := char_eq_of_toNat c 13 h13
    subst hc
    rfl
  by_cases h9 : c.toNat = 9
  · have hc : c = '\t' := (char_eq_of_toNat c 9 h9).trans (by decide)
    subst hc
    rfl
  by_cases hlow : c.toNat < 32
  · have h16 : c.toNat < 65536 := by omega
    have hns : c.toNat < 55296 ∨ 57344 ≤ c.toNat := by omega
    have hesc : jsonEscapeChar c.toNat
        = '\\' :: 'u' :: hexDigit (c.toNat / 4096 % 16)
          :: hexDigit (c.toNat / 256 % 16) :: hexDigit (c.toNat / 16 % 16)
          :: hexDigit (c.toNat % 16) :: [] := by
      simp only [jsonEscapeChar, if_neg h34, if_neg h92, if_neg h8,
        if_neg h12, if_neg h10, if_neg h13, if_neg h9,
        if_pos (Or.inl hlow), if_pos h16, hex4]
    rw [hesc]
    simp only [List.cons_append, List.nil_append]
    rw [parse_escape_u_bmp fuel c.toNat tail h16 hns, Char.ofNat_toNat]
  by_cases hhi : 127 ≤ c.toNat
  · by_cases hbmp : c.toNat < 65536
    · have hns : c.toNat < 55296 ∨ 57344 ≤ c.toNat := by omega
      have hesc : jsonEscapeChar c.toNat
          = '\\' :: 'u' :: hexDigit (c.toNat / 4096 % 16)
            :: hexDigit (c.toNat / 256 % 16) :: hexDigit (c.toNat / 16 % 16)
            :: hexDigit (c.toNat % 16) :: [] := by
        simp only [jsonEscapeChar, if_neg h34, if_neg h92, if_neg h8,
          if_neg h12, if_neg h10, if_neg h13, if_neg h9,
          if_pos (Or.inr hhi), if_pos hbmp, hex4]
      rw [hesc]
      simp only [List.cons_append, List.nil_append]
      rw [parse_escape_u_bmp fuel c.toNat tail hbmp hns, Char.ofNat_toNat]
    · have hval : c.toNat < 1114112 := by omega
      have hesc : jsonEscapeChar c.toNat
          = '\\' :: 'u' :: hexDigit ((55296 + (c.toNat - 65536) / 1024) / 4096 % 16)
            :: hexDigit ((55296 + (c.toNat - 65536) / 1024) / 256 % 16)
            :: hexDigit ((55296 + (c.toNat - 65536) / 1024) / 16 % 16)
            :: hexDigit ((55296 + (c.toNat - 65536) / 1024) % 16)
            :: '\\' :: 'u' :: hexDigit ((56320 + (c.toNat - 65536) % 1024) / 4096 % 16)
            :: hexDigit ((56320 + (c.toNat - 65536) % 1024) / 256 % 16)
            :: hexDigit ((56320 + (c.toNat - 65536) % 1024) / 16 % 16)
            :: hexDigit ((56320 + (c.toNat - 65536) % 1024) % 16) :: [] := by
        simp only [jsonEscapeChar, if_neg h34, if_neg h92, if_neg h8,
          if_neg h12, if_neg h10, if_neg h13, if_neg h9,
          if_pos (Or.inr hhi), if_neg hbmp, hex4]
        rfl
      rw [hesc]
      simp only [List.cons_append, List.nil_append]
      rw [parse_escape_u_pair fuel c.toNat tail (by omega) hval,
        Char.ofNat_toNat]
  · have hesc : jsonEscapeChar c.toNat = [Char.ofNat c.toNat] := by
      simp only [jsonEscapeChar, if_neg h34, if_neg h92, if_neg h8,
        if_neg h12, if_neg h10, if_neg h13, if_neg h9,
        if_neg (by omega : ¬ (c.toNat < 32 ∨ 127 ≤ c.toNat))]
    rw [hesc, Char.ofNat_toNat]
    have hq : c ≠ '"' := fun h => h34 (by rw [h]; rfl)
    have hb : c ≠ '\\' := fun h => h92 (by rw [h]; rfl)
    simp only [List.cons_append, List.nil_append]
    rw [psb_plain fuel c tail hq hb hlow]


/-- Parsing the escaped content of a string literal up to its closing
quote recovers the content, with fuel above the content length. -/
lemma parse_string_content (cs : List Char) :
    ∀ fuel tail, cs.length + 1 ≤ fuel →
    parseStringBody fuel
        (cs.flatMap (fun ch => jsonEscapeChar ch.toNat) ++ '"' :: tail)
      = some (cs, tail) := by
  induction cs with
  | nil =>
    intro fuel tail h
    obtain ⟨f, rfl⟩ : ∃ f, fuel = f + 1 := ⟨fuel - 1, by omega⟩
    simp only [List.flatMap_nil, List.nil_append]
    exact psb_quote f tail
  | cons c cs ih =>
    intro fuel tail h
    obtain ⟨f, rfl⟩ : ∃ f, fuel = f + 1 := ⟨fuel - 1, by omega⟩
    simp only [List.flatMap_cons, List.append_assoc]
    rw [parse_escape c f _]
    rw [ih f tail (by simp only [List.length_cons] at h; omega)]
    rfl

/-- The digit list of zero is empty for any fuel. -/
lemma natDigitsRev_zero (fuel : Nat) : natDigitsRev fuel 0 = [] := by
  cases fuel <;> rfl

/-- Every entry of the digit list is a digit. -/
lemma natDigitsRev_lt : ∀ fuel n d, d ∈ natDigitsRev fuel n → d < 10 := by
  intro fuel
  induction fuel with
  | zero => intro n d h; simp [natDigitsRev] at h
  | succ f ih =>
    intro n d h
    match n with
    | 0 => simp [natDigitsRev] at h
    | m + 1 =>
      simp only [natDigitsRev, List.mem_cons] at h
      rcases h with h | h
      · omega
      · exact ih _ _ h

/-- The folded value of the reversed digit list is the number. -/
lemma natDigitsRev_val : ∀ fuel n acc, n ≤ fuel →
    List.foldl (fun a d => 10 * a + d) acc ((natDigitsRev fuel n).reverse)
      = acc * 10 ^ (natDigitsRev fuel n).length + n := by
  intro fuel
  induction fuel with
  | zero =>
    intro n acc h
    interval_cases n
    simp [natDigitsRev]
  | succ f ih =>
    intro n acc h
    match n with
    | 0 => simp [natDigitsRev_zero]
    | m + 1 =>
      simp only [natDigitsRev, List.reverse_cons, List.foldl_append,
        List.length_cons]
      rw [ih ((m + 1) / 10) acc (by omega)]
      simp only [List.foldl_cons, List.foldl_nil, pow_succ]
      have hkey : ∀ K d r : Nat,
          10 * (acc * K + d) + r = acc * (K * 10) + (10 * d + r) := by
        intro K d r
        ring
      rw [hkey]
      have := Nat.div_add_mod (m + 1) 10
      omega

/-- The digit list of a positive number ends in a nonzero digit. -/
lemma natDigitsRev_last : ∀ fuel n, 0 < n → n ≤ fuel →
    ∃ ds d, natDigitsRev fuel n = ds ++ [d] ∧ d ≠ 0 := by
  intro fuel
  induction fuel with
  | zero => intro n h1 h2; omega
  | succ f ih =>
    intro n h1 h2
    match n with
    | m + 1 =>
      by_cases hq : (m + 1) / 10 = 0
      · refine ⟨[], (m + 1) % 10, ?_, ?_⟩
        · simp only [natDigitsRev, hq, natDigitsRev_zero, List.nil_append]
        · omega
      · obtain ⟨ds, d, hds, hd⟩ := ih ((m + 1) / 10) (by omega) (by omega)
        exact ⟨(m + 1) % 10 :: ds, d, by simp [natDigitsRev, hds], hd⟩

/-- Folding the decimal characters back recovers the fold of the digits. -/
lemma digitsToNat_map : ∀ (ds : List Nat) (acc : Nat), (∀ d ∈ ds, d < 10) →
    List.foldl (fun a c => 10 * a + (c.toNat - 48)) acc
        (ds.map (fun d => Char.ofNat (48 + d)))
      = List.foldl (fun a d => 10 * a + d) acc ds := by
  intro ds
  induction ds with
  | nil => intro acc h; rfl
  | cons d ds ih =>
    intro acc h
    simp only [List.map_cons, List.foldl_cons]
    rw [toNat_charOfNat (48 + d) (Or.inl (by
      have := h d (List.mem_cons_self d ds)
      omega))]
    rw [ih _ (fun x hx => h x (List.mem_cons_of_mem d hx))]
    congr 1
    omega

/-- The decimal characters of a natural decode to it. -/
lemma natToChars_val (n : Nat) : digitsToNat (natToChars n) = n := by
  by_cases h0 : n = 0
  · subst h0
    decide
  · unfold natToChars digitsToNat
    rw [if_neg h0]
    rw [digitsToNat_map _ 0 (fun d hd =>
      natDigitsRev_lt n n d (List.mem_reverse.mp hd))]
    rw [natDigitsRev_val n n 0 (le_refl n)]
    simp

/-- Every character of the decimal form is a digit character. -/
lemma natToChars_digits (n : Nat) :
    ∀ c ∈ natToChars n, 48 ≤ c.toNat ∧ c.toNat ≤ 57 := by
  intro c hc
  unfold natToChars at hc
  by_cases h0 : n = 0
  · rw [if_pos h0] at hc
    simp only [List.mem_singleton] at hc
    subst hc
    decide
  · rw [if_neg h0] at hc
    simp only [List.mem_map] at hc
    obtain ⟨d, hd, rfl⟩ := hc
    have hlt : d < 10 := natDigitsRev_lt n n d (List.mem_reverse.mp hd)
    rw [toNat_charOfNat (48 + d) (Or.inl (by omega))]
    omega

/-- The decimal form is never empty. -/
lemma natToChars_ne_nil (n : Nat) : natToChars n ≠ [] := by
  unfold natToChars
  by_cases h0 : n = 0
  · rw [if_pos h0]
    simp
  · rw [if_neg h0]
    obtain ⟨ds, d, hds, _⟩ := natDigitsRev_last n n (by omega) (le_refl n)
    simp [hds]

/-- The decimal form of a positive number does not start with the zero
character. -/
lemma natToChars_head_ne_zero (n : Nat) (h0 : 0 < n) :
    ∀ c cs, natToChars n = c :: cs → c ≠ '0' := by
  intro c cs hc
  unfold natToChars at hc
  rw [if_neg (by omega)] at hc
  obtain ⟨ds, d, hds, hd⟩ := natDigitsRev_last n n h0 (le_refl n)
  rw [hds] at hc
  simp only [List.reverse_append, List.reverse_singleton, List.map_cons,
    List.singleton_append, List.cons.injEq] at hc
  intro hcz
  rw [hcz] at hc
  have : ('0').toNat = 48 + d := by rw [← hc.1]; exact toNat_charOfNat _ (Or.inl (by
    have : d < 10 := natDigitsRev_lt n n d (by rw [hds]; simp)
    omega))
  have h48 : ('0').toNat = 48 := by decide
  omega


/-- A residue that cannot extend a just-parsed number: empty, or headed by
a character that is neither a digit nor a float continuation. -/
def numSafe : List Char → Prop
  | [] => True
  | c :: _ => ¬(48 ≤ c.toNat ∧ c.toNat ≤ 57) ∧ c ≠ '.' ∧ c ≠ 'e' ∧ c ≠ 'E'

/-- The empty residue is safe after a number. -/
lemma numSafe_nil : numSafe [] := trivial

/-- A comma residue is safe after a number. -/
lemma numSafe_comma (cs : List Char) : numSafe (',' :: cs) := by
  refine ⟨by decide, by decide, by decide, by decide⟩

/-- A closing-bracket residue is safe after a number. -/
lemma numSafe_rbracket (cs : List Char) : numSafe (']' :: cs) := by
  refine ⟨by decide, by decide, by decide, by decide⟩

/-- A closing-brace residue is safe after a number. -/
lemma numSafe_rbrace (cs : List Char) : numSafe ('\x7d' :: cs) := by
  refine ⟨by decide, by decide, by decide, by decide⟩

/-- Splitting a digit run followed by a safe residue returns exactly the
run and the residue. -/
lemma splitDigits_append : ∀ (ds rest : List Char),
    (∀ c ∈ ds, 48 ≤ c.toNat ∧ c.toNat ≤ 57) → numSafe rest →
    splitDigits (ds ++ rest) = (ds, rest) := by
  intro ds
  induction ds with
  | nil =>
    intro rest _ hrest
    match rest with
    | [] => rfl
    | c :: cs =>
      simp only [List.nil_append, splitDigits]
      rw [if_neg hrest.1]
  | cons c cs ih =>
    intro rest hds hrest
    simp only [List.cons_append, splitDigits]
    rw [if_pos (hds c (List.mem_cons_self c cs))]
    rw [List.append_eq, ih rest (fun x hx => hds x (List.mem_cons_of_mem c hx)) hrest]

/-- The fraction group consumes nothing of a safe residue. -/
lemma parseFracPart_numSafe (rest : List Char) (h : numSafe rest) :
    parseFracPart rest = ([], rest) := by
  match rest with
  | [] => rfl
  | c :: cs =>
    unfold parseFracPart
    rw [show headIs '.' (c :: cs) = (c == '.') from rfl,
      beq_eq_false_iff_ne.mpr h.2.1]
    simp only [Bool.false_eq_true, if_false]

/-- The exponent group consumes nothing of a safe residue. -/
lemma parseExpPart_numSafe (rest : List Char) (h : numSafe rest) :
    parseExpPart rest = (Option.none, rest) := by
  match rest with
  | [] => rfl
  | c :: cs =>
    unfold parseExpPart
    rw [show headIs 'e' (c :: cs) = (c == 'e') from rfl,
      show headIs 'E' (c :: cs) = (c == 'E') from rfl,
      beq_eq_false_iff_ne.mpr h.2.2.1, beq_eq_false_iff_ne.mpr h.2.2.2]
    simp only [Bool.false_eq_true, or_self, if_false]

/-- Parsing the decimal form of a natural followed by a safe residue
yields the int value and the residue. -/
lemma parseUNumber_rt (n : Nat) (rest : List Char) (h : numSafe rest) :
    parseUNumber (natToChars n ++ rest) = some (.int (n : Int), rest) := by
  obtain ⟨c, cs, hcs⟩ : ∃ c cs, natToChars n = c :: cs := by
    match hx : natToChars n with
    | [] => exact absurd hx (natToChars_ne_nil n)
    | c :: cs => exact ⟨c, cs, rfl⟩
  unfold parseUNumber
  rw [splitDigits_append (natToChars n) rest (natToChars_digits n) h, hcs]
  show (if c = '0' ∧ cs ≠ [] then Option.none
    else
      match parseFracPart rest with
      | (fds, rest1) =>
        match parseExpPart rest1 with
        | (oe, rest2) =>
          if fds = [] ∧ oe = Option.none then
            some (PyVal.int ((digitsToNat (c :: cs) : Int)), rest2)
          else
            some (PyVal.float (PyFloat.val (((digitsToNat ((c :: cs) ++ fds)) : ℚ)
              * (10 : ℚ) ^ ((oe.getD 0) - (fds.length : Int)))), rest2))
    = some (PyVal.int (n : Int), rest)
  have hnz : ¬(c = '0' ∧ cs ≠ []) := by
    by_cases h0 : n = 0
    · subst h0
      have : natToChars 0 = ['0'] := by decide
      rw [this] at hcs
      intro hcon
      exact hcon.2 (List.cons.injEq .. ▸ hcs).2.symm
    · intro hcon
      exact natToChars_head_ne_zero n (by omega) c cs hcs hcon.1
  rw [if_neg hnz, parseFracPart_numSafe rest h]
  show (match parseExpPart rest with
    | (oe, rest2) =>
      if ([] : List Char) = [] ∧ oe = Option.none then
        some (PyVal.int ((digitsToNat (c :: cs) : Int)), rest2)
      else
        some (PyVal.float (PyFloat.val (((digitsToNat ((c :: cs) ++ ([] : List Char))) : ℚ)
          * (10 : ℚ) ^ ((oe.getD 0) - (([] : List Char).length : Int)))),
          rest2))
    = some (PyVal.int (n : Int), rest)
  rw [parseExpPart_numSafe rest h]
  show (if ([] : List Char) = [] ∧ (Option.none : Option Int) = Option.none
    then some (PyVal.int ((digitsToNat (c :: cs) : Int)), rest)
    else some (PyVal.float (PyFloat.val (((digitsToNat ((c :: cs) ++ ([] : List Char))) : ℚ)
      * (10 : ℚ) ^ (((Option.none : Option Int).getD 0)
        - (([] : List Char).length : Int)))), rest))
    = some (PyVal.int (n : Int), rest)
  rw [if_pos ⟨rfl, rfl⟩, ← hcs, natToChars_val n]

/-- Parsing the decimal form of an integer followed by a safe residue
yields the int value and the residue. -/
lemma parseNumber_rt (n : Int) (rest : List Char) (h : numSafe rest) :
    parseNumber (intToChars n ++ rest) = some (.int n, rest) := by
  match n with
  | .ofNat m =>
    obtain ⟨c, cs, hcs⟩ : ∃ c cs, natToChars m = c :: cs := by
      match hx : natToChars m with
      | [] => exact absurd hx (natToChars_ne_nil m)
      | c :: cs => exact ⟨c, cs, rfl⟩
    have hdig := natToChars_digits m c (by rw [hcs]; exact List.mem_cons_self c cs)
    show parseNumber (natToChars m ++ rest) = some (.int (m : Int), rest)
    rw [hcs, List.cons_append]
    show (if c = '-' then
        (parseUNumber (cs ++ rest)).map (fun p => (pyNegNum p.1, p.2))
      else parseUNumber (c :: (cs ++ rest))) = some (.int (m : Int), rest)
    rw [if_neg (by intro hcm; rw [hcm] at hdig; revert hdig; decide)]
    rw [show c :: (cs ++ rest) = (c :: cs) ++ rest from rfl, ← hcs]
    exact parseUNumber_rt m rest h
  | .negSucc m =>
    show parseNumber ('-' :: (natToChars (m + 1) ++ rest)) = _
    show (parseUNumber (natToChars (m + 1) ++ rest)).map
        (fun p => (pyNegNum p.1, p.2)) = some (.int (Int.negSucc m), rest)
    have hval : (-(((m + 1 : Nat) : Int))) = Int.negSucc m := by
      rw [Int.negSucc_eq]
      push_cast
      ring
    rw [parseUNumber_rt (m + 1) rest h]
    show some ((.int (-(((m + 1 : Nat) : Int))) : PyVal), rest)
      = some (.int (Int.negSucc m), rest)
    rw [hval]

/-- Skipping whitespace leaves a list headed by a non-whitespace character
unchanged. -/
lemma skipWs_nonws (c : Char) (cs : List Char)
    (h : ¬(c = ' ' ∨ c = '\t' ∨ c = '\n' ∨ c = '\r')) :
    skipWs (c :: cs) = c :: cs := by
  simp only [skipWs]
  rw [if_neg h]

/-- Skipping whitespace passes over a leading space. -/
lemma skipWs_space (cs : List Char) : skipWs (' ' :: cs) = skipWs cs := rfl


/-- The printed form of any value starts with a character that is not
whitespace and not a closing delimiter. -/
lemma printVal_head (v : PyVal) : ∃ c cs, printVal v = c :: cs ∧
    ¬(c = ' ' ∨ c = '\t' ∨ c = '\n' ∨ c = '\r') ∧ c ≠ ']' ∧ c ≠ '\x7d' := by
  match v with
  | .none => exact ⟨'n', _, rfl, by decide, by decide, by decide⟩
  | .bool true => exact ⟨'t', _, rfl, by decide, by decide, by decide⟩
  | .bool false => exact ⟨'f', _, rfl, by decide, by decide, by decide⟩
  | .str s => exact ⟨'"', _, rfl, by decide, by decide, by decide⟩
  | .list xs => exact ⟨'[', _, rfl, by decide, by decide, by decide⟩
  | .dict kvs => exact ⟨'\x7b', _, rfl, by decide, by decide, by decide⟩
  | .int (.ofNat m) =>
    obtain ⟨c, cs, hcs⟩ : ∃ c cs, natToChars m = c :: cs := by
      match hx : natToChars m with
      | [] => exact absurd hx (natToChars_ne_nil m)
      | c :: cs => exact ⟨c, cs, rfl⟩
    have hdig := natToChars_digits m c
      (by rw [hcs]; exact List.mem_cons_self c cs)
    refine ⟨c, cs, hcs, ?_, ?_, ?_⟩
    · rintro (h | h | h | h) <;> rw [h] at hdig <;> revert hdig <;> decide
    · intro h; rw [h] at hdig; revert hdig; decide
    · intro h; rw [h] at hdig; revert hdig; decide
  | .int (.negSucc m) =>
    exact ⟨'-', _, rfl, by decide, by decide, by decide⟩
  | .float .nan => exact ⟨'N', _, rfl, by decide, by decide, by decide⟩
  | .float .inf => exact ⟨'I', _, rfl, by decide, by decide, by decide⟩
  | .float .ninf => exact ⟨'-', _, rfl, by decide, by decide, by decide⟩
  | .float (.val q) =>
    obtain ⟨d, ds, hds⟩ : ∃ d ds,
        natToChars (q.num.natAbs / q.den) = d :: ds := by
      match hx : natToChars (q.num.natAbs / q.den) with
      | [] => exact absurd hx (natToChars_ne_nil _)
      | d :: ds => exact ⟨d, ds, rfl⟩
    have hd := natToChars_digits (q.num.natAbs / q.den) d
      (by rw [hds]; exact List.mem_cons_self d ds)
    by_cases hq : q < 0
    · refine ⟨'-', natToChars (q.num.natAbs / q.den)
          ++ '.' :: (if q.num.natAbs % q.den = 0 then ['0']
            else fracDigits 17 (q.num.natAbs % q.den) q.den),
        ?_, by decide, by decide, by decide⟩
      show pyFloatRepr (.val q) = _
      show (if q < 0 then ['-'] else []) ++ natToChars (q.num.natAbs / q.den)
          ++ '.' :: (if q.num.natAbs % q.den = 0 then ['0']
            else fracDigits 17 (q.num.natAbs % q.den) q.den) = _
      rw [if_pos hq]
      rfl
    · refine ⟨d, ds ++ '.' :: (if q.num.natAbs % q.den = 0 then ['0']
          else fracDigits 17 (q.num.natAbs % q.den) q.den), ?_, ?_, ?_, ?_⟩
      · show pyFloatRepr (.val q) = _
        show (if q < 0 then ['-'] else []) ++ natToChars (q.num.natAbs / q.den)
            ++ '.' :: (if q.num.natAbs % q.den = 0 then ['0']
              else fracDigits 17 (q.num.natAbs % q.den) q.den) = _
        rw [if_neg hq, List.nil_append, hds]
        rfl
      · rintro (h | h | h | h) <;> rw [h] at hd <;> revert hd <;> decide
      · intro h; rw [h] at hd; revert hd; decide
      · intro h; rw [h] at hd; revert hd; decide

/-- All dict keys are strings. -/
def strKeys : List (PyKey × PyVal) → Bool
  | [] => true
  | kv :: kvs =>
    (match kv.1 with | .str _ => true | .int _ => false) && strKeys kvs

/-- Dict keys are pairwise distinct. -/
def nodupKeys : List (PyKey × PyVal) → Bool
  | [] => true
  | kv :: kvs => !(kvs.any (fun kv2 => kv2.1 == kv.1)) && nodupKeys kvs

mutual

/-- The values whose json.dumps round trip is claimed: every dict has
pairwise-distinct string keys and no float appears anywhere - an int key
is coerced to a string by json.dumps, a reloaded NaN compares unequal to
itself, and the repr/parse rounding of a finite double is abstracted. -/
def pyWF : PyVal → Bool
  | .none => true
  | .bool _ => true
  | .int _ => true
  | .float _ => false
  | .str _ => true
  | .list xs => pyWFList xs
  | .dict kvs => strKeys kvs && nodupKeys kvs && pyWFEntries kvs

/-- pyWF on all items of a list. -/
def pyWFList : List PyVal → Bool
  | [] => true
  | x :: xs => pyWF x && pyWFList xs

/-- pyWF on all values of entries. -/
def pyWFEntries : List (PyKey × PyVal) → Bool
  | [] => true
  | kv :: kvs => pyWF kv.2 && pyWFEntries kvs

end

/-- Entries with their keys as raw strings, as the parser produces. -/
def stripKeys : List (PyKey × PyVal) → List (String × PyVal)
  | [] => []
  | (.str s, v) :: kvs => (s, v) :: stripKeys kvs
  | (.int n, v) :: kvs => (⟨intToChars n⟩, v) :: stripKeys kvs

/-- The printed length of a key. -/
def costKey : PyKey → Nat
  | .str s => s.data.length + 1
  | .int n => (intToChars n).length + 1

mutual

/-- Fuel sufficient for the reader on the printed form of a value. -/
def costVal : PyVal → Nat
  | .none => 1
  | .bool _ => 1
  | .int _ => 1
  | .float _ => 1
  | .str s => s.data.length + 2
  | .list xs => 1 + costItems xs
  | .dict kvs => 1 + costEntries kvs

/-- Fuel sufficient for the reader on printed list items. -/
def costItems : List PyVal → Nat
  | [] => 0
  | x :: xs => 1 + costVal x + costItems xs

/-- Fuel sufficient for the reader on printed dict entries. -/
def costEntries : List (PyKey × PyVal) → Nat
  | [] => 0
  | kv :: kvs => 1 + costKey kv.1 + costVal kv.2 + costEntries kvs

end

/-- Every escape is at least one character. -/
lemma jsonEscapeChar_ne_nil (c : Nat) : 1 ≤ (jsonEscapeChar c).length := by
  unfold jsonEscapeChar
  split_ifs <;> simp [hex4]

/-- Escaping does not shorten a string. -/
lemma length_le_flatMap (cs : List Char) :
    cs.length ≤ (cs.flatMap (fun ch => jsonEscapeChar ch.toNat)).length := by
  induction cs with
  | nil => simp
  | cons c cs ih =>
    simp only [List.flatMap_cons, List.length_append, List.length_cons]
    have := jsonEscapeChar_ne_nil c.toNat
    omega

mutual

/-- The fuel bound of a value is within its printed length plus one. -/
theorem costVal_le : ∀ v : PyVal, costVal v ≤ (printVal v).length + 1
  | .none => by decide
  | .bool b => by cases b <;> decide
  | .int n => by simp [costVal]
  | .float f => by simp [costVal]
  | .str s => by
    have := length_le_flatMap s.data
    simp only [costVal, printVal, jsonQuoteString, List.length_cons,
      List.length_append, List.length_singleton]
    omega
  | .list xs => by
    have := costItems_le xs
    simp only [costVal, printVal, List.length_cons, List.length_append,
      List.length_singleton]
    omega
  | .dict kvs => by
    have := costEntries_le kvs
    simp only [costVal, printVal, List.length_cons, List.length_append,
      List.length_singleton]
    omega

/-- The fuel bound of items is within their printed length plus two. -/
theorem costItems_le : ∀ xs : List PyVal,
    costItems xs ≤ (printItems xs).length + 2
  | [] => by simp [costItems]
  | [x] => by
    have := costVal_le x
    simp only [costItems, printItems]
    omega
  | x :: y :: xs => by
    have h1 := costVal_le x
    have h2 := costItems_le (y :: xs)
    simp only [costItems] at h2
    simp only [costItems, printItems, List.length_append, List.length_cons]
    omega

/-- The fuel bound of entries is within their printed length plus two. -/
theorem costEntries_le : ∀ kvs : List (PyKey × PyVal),
    costEntries kvs ≤ (printEntries kvs).length + 2
  | [] => by simp [costEntries]
  | [(k, v)] => by
    have h1 := costVal_le v
    have h2 : costKey k ≤ (printKey k).length := by
      match k with
      | .str s =>
        have := length_le_flatMap s.data
        simp only [costKey, printKey, jsonQuoteString, List.length_cons,
          List.length_append, List.length_singleton]
        omega
      | .int n =>
        simp only [costKey, printKey, List.length_cons, List.length_append,
          List.length_singleton]
        omega
    simp only [costEntries, printEntries, List.length_append,
      List.length_cons]
    omega
  | (k, v) :: kv :: kvs => by
    have h1 := costVal_le v
    have h2 : costKey k ≤ (printKey k).length := by
      match k with
      | .str s =>
        have := length_le_flatMap s.data
        simp only [costKey, printKey, jsonQuoteString, List.length_cons,
          List.length_append, List.length_singleton]
        omega
      | .int n =>
        simp only [costKey, printKey, List.length_cons, List.length_append,
          List.length_singleton]
        omega
    have h3 := costEntries_le (kv :: kvs)
    simp only [costEntries] at h3
    simp only [costEntries, printEntries, List.length_append,
      List.length_cons]
    omega

end


/-- Entries regarded as dict entries with string keys. -/
def toKvs (es : List (String × PyVal)) : List (PyKey × PyVal) :=
  es.map (fun e => (.str e.1, e.2))

/-- Stripping and re-wrapping string keys is the identity. -/
lemma stripKeys_toKvs : ∀ kvs : List (PyKey × PyVal),
    strKeys kvs = true → toKvs (stripKeys kvs) = kvs := by
  intro kvs
  induction kvs with
  | nil => intro h; rfl
  | cons kv kvs ih =>
    intro h
    obtain ⟨k, v⟩ := kv
    simp only [strKeys, Bool.and_eq_true] at h
    match k, h with
    | .str s, h =>
      simp only [stripKeys, toKvs, List.map_cons]
      rw [show List.map (fun e => ((.str e.1 : PyKey), e.2))
        (stripKeys kvs) = toKvs (stripKeys kvs) from rfl, ih h.2]
    | .int n, h => exact Bool.noConfusion h.1

/-- Assigning a fresh key appends the entry. -/
lemma dictAssign_append (acc : List (PyKey × PyVal)) (k : PyKey) (v : PyVal)
    (h : acc.any (fun kv => kv.1 == k) = false) :
    dictAssign acc k v = acc ++ [(k, v)] := by
  unfold dictAssign
  rw [h]
  simp

/-- Under nodup keys of the whole list, no prefix entry carries the key of
a later entry. -/
lemma nodupKeys_disjoint : ∀ (acc tail : List (PyKey × PyVal))
    (k : PyKey) (v : PyVal), nodupKeys (acc ++ (k, v) :: tail) = true →
    acc.any (fun kv => kv.1 == k) = false := by
  intro acc
  induction acc with
  | nil => intro tail k v _; rfl
  | cons a acc ih =>
    intro tail k v h
    simp only [List.cons_append, nodupKeys, Bool.and_eq_true,
      Bool.not_eq_true'] at h
    have hk : (k == a.1) = false := by
      have := h.1
      simp only [List.append_eq, List.any_append, List.any_cons,
        Bool.or_eq_false_iff] at this
      exact this.2.1
    simp only [List.any_cons, Bool.or_eq_false_iff]
    constructor
    · simp only [beq_eq_false_iff_ne] at hk ⊢
      exact fun he => hk he.symm
    · exact ih tail k v h.2

/-- Folding assignments of entries with globally nodup keys appends them
in order. -/
lemma buildDict_aux : ∀ (es : List (String × PyVal))
    (acc : List (PyKey × PyVal)), nodupKeys (acc ++ toKvs es) = true →
    es.foldl (fun acc e => dictAssign acc (.str e.1) e.2) acc
      = acc ++ toKvs es := by
  intro es
  induction es with
  | nil => intro acc _; simp [toKvs]
  | cons e es ih =>
    intro acc h
    have htk : toKvs (e :: es) = (.str e.1, e.2) :: toKvs es := rfl
    rw [htk] at h
    have hstep : dictAssign acc (.str e.1) e.2 = acc ++ [(.str e.1, e.2)] :=
      dictAssign_append acc (.str e.1) e.2
        (nodupKeys_disjoint acc (toKvs es) (.str e.1) e.2 h)
    simp only [List.foldl_cons]
    rw [hstep]
    have hprem : nodupKeys ((acc ++ [((PyKey.str e.1 : PyKey), e.2)])
        ++ toKvs es) = true := by
      rw [List.append_assoc, List.singleton_append]
      exact h
    rw [ih (acc ++ [((PyKey.str e.1 : PyKey), e.2)]) hprem]
    rw [List.append_assoc, List.singleton_append, htk]

/-- Building a dict from the stripped entries of a nodup string-keyed dict
recovers the entries. -/
lemma buildDict_strip (kvs : List (PyKey × PyVal)) (hs : strKeys kvs = true)
    (hn : nodupKeys kvs = true) : buildDict (stripKeys kvs) = kvs := by
  unfold buildDict
  rw [buildDict_aux (stripKeys kvs) [] (by
    rw [List.nil_append, stripKeys_toKvs kvs hs]
    exact hn)]
  rw [List.nil_append, stripKeys_toKvs kvs hs]


/-- Every value costs at least one unit of fuel. -/
lemma costVal_pos (v : PyVal) : 1 ≤ costVal v := by
  cases v <;> simp only [costVal] <;> omega

/-- The decimal form of an integer starts with a minus sign followed by a
digit, or with a digit. -/
lemma intToChars_head (n : Int) : ∃ c cs, intToChars n = c :: cs ∧
    ((c = '-' ∧ ∃ d ds, cs = d :: ds ∧ 48 ≤ d.toNat ∧ d.toNat ≤ 57)
      ∨ (48 ≤ c.toNat ∧ c.toNat ≤ 57)) := by
  match n with
  | .ofNat m =>
    obtain ⟨c, cs, hcs⟩ : ∃ c cs, natToChars m = c :: cs := by
      match hx : natToChars m with
      | [] => exact absurd hx (natToChars_ne_nil m)
      | c :: cs => exact ⟨c, cs, rfl⟩
    exact ⟨c, cs, hcs, Or.inr (natToChars_digits m c
      (by rw [hcs]; exact List.mem_cons_self c cs))⟩
  | .negSucc m =>
    obtain ⟨d, ds, hds⟩ : ∃ d ds, natToChars (m + 1) = d :: ds := by
      match hx : natToChars (m + 1) with
      | [] => exact absurd hx (natToChars_ne_nil (m + 1))
      | d :: ds => exact ⟨d, ds, rfl⟩
    refine ⟨'-', natToChars (m + 1), rfl, Or.inl ⟨rfl, d, ds, hds,
      natToChars_digits (m + 1) d ?_⟩⟩
    rw [hds]
    exact List.mem_cons_self d ds

/-- Printed items of a nonempty list start with the printed first item. -/
lemma printItems_cons_decomp (x : PyVal) (xs : List PyVal) :
    ∃ t, printItems (x :: xs) = printVal x ++ t := by
  match xs with
  | [] => exact ⟨[], by simp [printItems]⟩
  | y :: ys => exact ⟨',' :: ' ' :: printItems (y :: ys), rfl⟩

/-- Printed entries of a nonempty string-keyed dict start with a quote. -/
lemma printEntries_head (k : PyKey) (w : PyVal) (kvs : List (PyKey × PyVal))
    (h : strKeys ((k, w) :: kvs) = true) :
    ∃ t, printEntries ((k, w) :: kvs) = '"' :: t := by
  simp only [strKeys, Bool.and_eq_true] at h
  match k, h with
  | .str s, _ =>
    match kvs with
    | [] =>
      refine ⟨s.data.flatMap (fun ch => jsonEscapeChar ch.toNat) ++ ['"']
        ++ (':' :: ' ' :: printVal w), ?_⟩
      simp [printEntries, printKey, jsonQuoteString]
    | kv2 :: kvs2 =>
      refine ⟨s.data.flatMap (fun ch => jsonEscapeChar ch.toNat) ++ ['"']
        ++ (':' :: ' ' :: printVal w)
        ++ (',' :: ' ' :: printEntries (kv2 :: kvs2)), ?_⟩
      simp [printEntries, printKey, jsonQuoteString]
  | .int m, h => exact Bool.noConfusion h.1

/-- Whitespace skipping leaves printed items alone. -/
lemma skipWs_printItems (y : PyVal) (xs : List PyVal) (tail : List Char) :
    skipWs (printItems (y :: xs) ++ tail) = printItems (y :: xs) ++ tail := by
  obtain ⟨t, ht⟩ := printItems_cons_decomp y xs
  obtain ⟨c, cs, hpc, hnws, _, _⟩ := printVal_head y
  rw [ht, hpc]
  simp only [List.cons_append, List.append_assoc]
  exact skipWs_nonws c _ hnws

/-- Whitespace skipping leaves printed entries alone. -/
lemma skipWs_printEntries (k : PyKey) (w : PyVal)
    (kvs : List (PyKey × PyVal)) (tail : List Char)
    (h : strKeys ((k, w) :: kvs) = true) :
    skipWs (printEntries ((k, w) :: kvs) ++ tail)
      = printEntries ((k, w) :: kvs) ++ tail := by
  obtain ⟨t, ht⟩ := printEntries_head k w kvs h
  rw [ht]
  simp only [List.cons_append]
  exact skipWs_nonws '"' _ (by decide)

/-- Printed items never start with a closing bracket. -/
lemma headIs_rbracket_printItems (y : PyVal) (xs : List PyVal)
    (tail : List Char) :
    headIs ']' (printItems (y :: xs) ++ tail) = false := by
  obtain ⟨t, ht⟩ := printItems_cons_decomp y xs
  obtain ⟨c, cs, hpc, _, hnrb, _⟩ := printVal_head y
  rw [ht, hpc]
  simp only [List.cons_append]
  show (c == ']') = false
  exact beq_eq_false_iff_ne.mpr hnrb

/-- Printed entries never start with a closing brace. -/
lemma headIs_rbrace_printEntries (k : PyKey) (w : PyVal)
    (kvs : List (PyKey × PyVal)) (tail : List Char)
    (h : strKeys ((k, w) :: kvs) = true) :
    headIs '\x7d' (printEntries ((k, w) :: kvs) ++ tail) = false := by
  obtain ⟨t, ht⟩ := printEntries_head k w kvs h
  rw [ht]
  simp only [List.cons_append]
  rfl

/-- The reader on a null literal. -/
lemma parseVal_null_step (f : Nat) (cs rest : List Char)
    (h : skipWs cs = 'n' :: 'u' :: 'l' :: 'l' :: rest) :
    parseVal (f + 1) cs = some (.none, rest) := by
  simp only [parseVal]
  rw [h]
  rfl

/-- The reader on a true literal. -/
lemma parseVal_true_step (f : Nat) (cs rest : List Char)
    (h : skipWs cs = 't' :: 'r' :: 'u' :: 'e' :: rest) :
    parseVal (f + 1) cs = some (.bool true, rest) := by
  simp only [parseVal]
  rw [h]
  rfl

/-- The reader on a false literal. -/
lemma parseVal_false_step (f : Nat) (cs rest : List Char)
    (h : skipWs cs = 'f' :: 'a' :: 'l' :: 's' :: 'e' :: rest) :
    parseVal (f + 1) cs = some (.bool false, rest) := by
  simp only [parseVal]
  rw [h]
  rfl

/-- The reader on a string literal hands its body to the string reader. -/
lemma parseVal_str_step (f : Nat) (cs rest : List Char)
    (h : skipWs cs = '"' :: rest) :
    parseVal (f + 1) cs
      = (parseStringBody f rest).map
          (fun p => ((.str ⟨p.1⟩ : PyVal), p.2)) := by
  simp only [parseVal]
  rw [h]
  rfl

/-- The reader on an opening bracket. -/
lemma parseVal_list_step (f : Nat) (cs rest : List Char)
    (h : skipWs cs = '[' :: rest) :
    parseVal (f + 1) cs
      = (if headIs ']' (skipWs rest) then some (.list [], (skipWs rest).tail)
         else (parseItems f (skipWs rest)).map
           (fun p => ((.list p.1 : PyVal), p.2))) := by
  simp only [parseVal]
  rw [h]
  rfl

/-- The reader on an opening brace. -/
lemma parseVal_dict_step (f : Nat) (cs rest : List Char)
    (h : skipWs cs = '\x7b' :: rest) :
    parseVal (f + 1) cs
      = (if headIs '\x7d' (skipWs rest) then
          some (.dict [], (skipWs rest).tail)
         else (parseEntries f (skipWs rest)).map
           (fun p => ((.dict (buildDict p.1) : PyVal), p.2))) := by
  simp only [parseVal]
  rw [h]
  rfl

/-- The reader on any other head character, none of the constant
spellings applying, tries a number. -/
lemma parseVal_num_step (f : Nat) (cs : List Char) (c : Char)
    (rest : List Char) (h : skipWs cs = c :: rest)
    (h1 : c ≠ 'n') (h2 : c ≠ 't') (h3 : c ≠ 'f') (h4 : c ≠ '"')
    (h5 : c ≠ '[') (h6 : c ≠ '\x7b') (h7 : c ≠ 'N') (h8 : c ≠ 'I')
    (h9 : ¬(c = '-' ∧ headIs 'I' rest = true)) :
    parseVal (f + 1) cs = parseNumber (c :: rest) := by
  simp only [parseVal, h, if_neg h1, if_neg h2, if_neg h3, if_neg h4,
    if_neg h5, if_neg h6, if_neg h7, if_neg h8, if_neg h9]

/-- The items reader past one value and a comma. -/
lemma parseItems_step_comma (f : Nat) (cs : List Char) (v : PyVal)
    (rest rest2 : List Char) (hv : parseVal f cs = some (v, rest))
    (hr : skipWs rest = ',' :: rest2) :
    parseItems (f + 1) cs
      = (parseItems f rest2).map (fun p => (v :: p.1, p.2)) := by
  simp only [parseItems, hv, hr]

/-- The items reader past the last value and the closing bracket. -/
lemma parseItems_step_rbracket (f : Nat) (cs : List Char) (v : PyVal)
    (rest rest2 : List Char) (hv : parseVal f cs = some (v, rest))
    (hr : skipWs rest = ']' :: rest2) :
    parseItems (f + 1) cs = some ([v], rest2) := by
  simp only [parseItems, hv, hr]

/-- The entries reader past one entry and a comma. -/
lemma parseEntries_step_comma (f : Nat) (cs rest0 : List Char)
    (kcs rest1 : List Char) (v : PyVal) (rest2 rest3 rest4 : List Char)
    (h : skipWs cs = '"' :: rest0)
    (hk : parseStringBody f rest0 = some (kcs, rest1))
    (h1 : skipWs rest1 = ':' :: rest2)
    (hv : parseVal f rest2 = some (v, rest3))
    (h3 : skipWs rest3 = ',' :: rest4) :
    parseEntries (f + 1) cs
      = (parseEntries f rest4).map (fun p => ((⟨kcs⟩, v) :: p.1, p.2)) := by
  simp only [parseEntries, h, hk, h1, hv, h3]

/-- The entries reader past the last entry and the closing brace. -/
lemma parseEntries_step_brace (f : Nat) (cs rest0 : List Char)
    (kcs rest1 : List Char) (v : PyVal) (rest2 rest3 rest4 : List Char)
    (h : skipWs cs = '"' :: rest0)
    (hk : parseStringBody f rest0 = some (kcs, rest1))
    (h1 : skipWs rest1 = ':' :: rest2)
    (hv : parseVal f rest2 = some (v, rest3))
    (h3 : skipWs rest3 = '\x7d' :: rest4) :
    parseEntries (f + 1) cs = some ([(⟨kcs⟩, v)], rest4) := by
  simp only [parseEntries, h, hk, h1, hv, h3]


/-- The round trip at the heart of C10: with enough fuel, reading the
printed form of a well-formed value (and of nonempty printed items and
entries) recovers it exactly, leaving the residue. -/
lemma rt_main : ∀ fuel : Nat,
    (∀ (v : PyVal) (cs rest : List Char), pyWF v = true → numSafe rest →
      costVal v ≤ fuel → skipWs cs = printVal v ++ rest →
      parseVal fuel cs = some (v, rest)) ∧
    (∀ (xs : List PyVal) (cs rest : List Char), pyWFList xs = true →
      xs ≠ [] → costItems xs ≤ fuel →
      skipWs cs = printItems xs ++ ']' :: rest →
      parseItems fuel cs = some (xs, rest)) ∧
    (∀ (kvs : List (PyKey × PyVal)) (cs rest : List Char),
      pyWFEntries kvs = true → strKeys kvs = true → kvs ≠ [] →
      costEntries kvs ≤ fuel →
      skipWs cs = printEntries kvs ++ '\x7d' :: rest →
      parseEntries fuel cs = some (stripKeys kvs, rest)) := by
  intro fuel
  induction fuel with
  | zero =>
    refine ⟨?_, ?_, ?_⟩
    · intro v cs rest _ _ hcost _
      exact absurd hcost (by have := costVal_pos v; omega)
    · intro xs cs rest _ hne hcost _
      match xs, hne with
      | x :: xs', _ =>
        simp only [costItems] at hcost
        exact absurd hcost (by have := costVal_pos x; omega)
    · intro kvs cs rest _ _ hne hcost _
      match kvs, hne with
      | kv :: kvs', _ =>
        simp only [costEntries] at hcost
        exact absurd hcost (by have := costVal_pos kv.2; omega)
  | succ f ih =>
    obtain ⟨ihv, ihitems, ihentries⟩ := ih
    refine ⟨?_, ?_, ?_⟩
    · -- values
      intro v cs rest hwf hns hcost hskip
      match v with
      | .none => exact parseVal_null_step f cs rest (hskip.trans rfl)
      | .bool true => exact parseVal_true_step f cs rest (hskip.trans rfl)
      | .bool false => exact parseVal_false_step f cs rest (hskip.trans rfl)
      | .float fl => exact absurd hwf (by simp [pyWF])
      | .int n =>
        obtain ⟨c, cs', hcs, hprop⟩ := intToChars_head n
        have hskip' : skipWs cs = c :: (cs' ++ rest) := by
          rw [hskip]
          show intToChars n ++ rest = c :: (cs' ++ rest)
          rw [hcs]
          rfl
        have hne : c ≠ 'n' ∧ c ≠ 't' ∧ c ≠ 'f' ∧ c ≠ '"' ∧ c ≠ '['
            ∧ c ≠ '\x7b' ∧ c ≠ 'N' ∧ c ≠ 'I' := by
          rcases hprop with ⟨h, _⟩ | h
          · subst h
            exact ⟨by decide, by decide, by decide, by decide, by decide,
              by decide, by decide, by decide⟩
          · refine ⟨?_, ?_, ?_, ?_, ?_, ?_, ?_, ?_⟩ <;>
              (intro he; rw [he] at h; revert h; decide)
        have h9 : ¬(c = '-' ∧ headIs 'I' (cs' ++ rest) = true) := by
          rcases hprop with ⟨hm, d, ds, hds, hd1, hd2⟩ | h
          · rintro ⟨_, hh⟩
            rw [hds] at hh
            rw [show headIs 'I' ((d :: ds) ++ rest) = (d == 'I') from rfl]
              at hh
            rw [eq_of_beq hh] at hd2
            revert hd2
            decide
          · rintro ⟨hc, _⟩
            rw [hc] at h
            revert h
            decide
        rw [parseVal_num_step f cs c (cs' ++ rest) hskip' hne.1 hne.2.1
          hne.2.2.1 hne.2.2.2.1 hne.2.2.2.2.1 hne.2.2.2.2.2.1
          hne.2.2.2.2.2.2.1 hne.2.2.2.2.2.2.2 h9]
        rw [show (c :: (cs' ++ rest)) = (c :: cs') ++ rest from rfl, ← hcs]
        exact parseNumber_rt n rest hns
      | .str s =>
        have hskip' : skipWs cs = '"' ::
            (s.data.flatMap (fun ch => jsonEscapeChar ch.toNat)
              ++ '"' :: rest) := by
          rw [hskip]
          show jsonQuoteString s ++ rest = _
          simp [jsonQuoteString, List.append_assoc]
        rw [parseVal_str_step f cs _ hskip']
        rw [parse_string_content s.data f rest
          (by simp only [costVal] at hcost; omega)]
        rfl
      | .list [] =>
        rw [parseVal_list_step f cs (']' :: rest) (hskip.trans rfl)]
        rfl
      | .list (x :: xs') =>
        have hskip' : skipWs cs
            = '[' :: (printItems (x :: xs') ++ ']' :: rest) := by
          rw [hskip]
          show ('[' :: (printItems (x :: xs') ++ [']'])) ++ rest = _
          simp [List.append_assoc]
        rw [parseVal_list_step f cs _ hskip']
        rw [skipWs_printItems x xs' (']' :: rest)]
        rw [headIs_rbracket_printItems x xs' (']' :: rest)]
        simp only [Bool.false_eq_true, if_false]
        rw [ihitems (x :: xs') (printItems (x :: xs') ++ ']' :: rest) rest
          hwf (by simp) (by simp only [costVal] at hcost; omega)
          (skipWs_printItems x xs' (']' :: rest))]
        rfl
      | .dict [] =>
        rw [parseVal_dict_step f cs ('\x7d' :: rest) (hskip.trans rfl)]
        rfl
      | .dict (kv :: kvs') =>
        obtain ⟨k, w⟩ := kv
        simp only [pyWF, Bool.and_eq_true] at hwf
        have hskip' : skipWs cs
            = '\x7b' :: (printEntries ((k, w) :: kvs') ++ '\x7d' :: rest) := by
          rw [hskip]
          show ('\x7b' :: (printEntries ((k, w) :: kvs') ++ ['\x7d'])) ++ rest
            = _
          simp [List.append_assoc]
        rw [parseVal_dict_step f cs _ hskip']
        rw [skipWs_printEntries k w kvs' ('\x7d' :: rest) hwf.1.1]
        rw [headIs_rbrace_printEntries k w kvs' ('\x7d' :: rest) hwf.1.1]
        simp only [Bool.false_eq_true, if_false]
        rw [ihentries ((k, w) :: kvs')
          (printEntries ((k, w) :: kvs') ++ '\x7d' :: rest) rest
          hwf.2 hwf.1.1 (by simp)
          (by simp only [costVal] at hcost; omega)
          (skipWs_printEntries k w kvs' ('\x7d' :: rest) hwf.1.1)]
        show some ((.dict (buildDict (stripKeys ((k, w) :: kvs'))) : PyVal),
          rest) = some (.dict ((k, w) :: kvs'), rest)
        rw [buildDict_strip ((k, w) :: kvs') hwf.1.1 hwf.1.2]
    · -- items
      intro xs cs rest hwf hne hcost hskip
      match xs, hne with
      | [x], _ =>
        simp only [pyWFList, Bool.and_eq_true] at hwf
        simp only [costItems] at hcost
        have hv := ihv x cs (']' :: rest) hwf.1 (numSafe_rbracket rest)
          (by omega) (hskip.trans (by show printItems [x] ++ _ = _; rfl))
        exact parseItems_step_rbracket f cs x (']' :: rest) rest hv rfl
      | x :: y :: ys, _ =>
        simp only [pyWFList, Bool.and_eq_true] at hwf
        simp only [costItems] at hcost
        have hv := ihv x cs
          (',' :: ' ' :: (printItems (y :: ys) ++ ']' :: rest)) hwf.1
          (numSafe_comma _) (by omega)
          (by
            rw [hskip]
            show printVal x ++ (',' :: ' ' :: printItems (y :: ys))
              ++ ']' :: rest = _
            simp [List.append_assoc])
        rw [parseItems_step_comma f cs x _ _ hv rfl]
        rw [ihitems (y :: ys)
          (' ' :: (printItems (y :: ys) ++ ']' :: rest)) rest
          (by simp only [pyWFList, Bool.and_eq_true]
              exact ⟨hwf.2.1, hwf.2.2⟩)
          (by simp)
          (by simp only [costItems]; omega)
          (by rw [skipWs_space]; exact skipWs_printItems y ys (']' :: rest))]
        rfl
    · -- entries
      intro kvs cs rest hwf hstr hne hcost hskip
      match kvs, hne with
      | (k, w) :: kvs', _ =>
        simp only [pyWFEntries, Bool.and_eq_true] at hwf
        simp only [strKeys, Bool.and_eq_true] at hstr
        match k, hstr with
        | .str s, hstr =>
          simp only [costEntries, costKey] at hcost
          match kvs' with
          | [] =>
            have hskip0 : skipWs cs = '"' ::
                (s.data.flatMap (fun ch => jsonEscapeChar ch.toNat)
                  ++ '"' :: (':' :: ' ' :: (printVal w ++ '\x7d' :: rest))) := by
              rw [hskip]
              show (jsonQuoteString s ++ (':' :: ' ' :: printVal w))
                ++ '\x7d' :: rest = _
              simp [jsonQuoteString, List.append_assoc]
            have hk := parse_string_content s.data f
              (':' :: ' ' :: (printVal w ++ '\x7d' :: rest)) (by omega)
            have hv := ihv w (' ' :: (printVal w ++ '\x7d' :: rest))
              ('\x7d' :: rest) hwf.1 (numSafe_rbrace rest) (by omega)
              (by
                rw [skipWs_space]
                obtain ⟨c, cs2, hpc, hnws, _, _⟩ := printVal_head w
                rw [hpc]
                simp only [List.cons_append]
                exact skipWs_nonws c _ hnws)
            rw [parseEntries_step_brace f cs _ s.data _ w _ _ rest hskip0
              hk rfl hv rfl]
            rfl
          | kv2 :: kvs2 =>
            have hskip0 : skipWs cs = '"' ::
                (s.data.flatMap (fun ch => jsonEscapeChar ch.toNat)
                  ++ '"' :: (':' :: ' ' :: (printVal w ++ ',' :: ' ' ::
                    (printEntries (kv2 :: kvs2) ++ '\x7d' :: rest)))) := by
              rw [hskip]
              show (jsonQuoteString s ++ (':' :: ' ' :: printVal w)
                ++ (',' :: ' ' :: printEntries (kv2 :: kvs2)))
                ++ '\x7d' :: rest = _
              simp [jsonQuoteString, List.append_assoc]
            have hk := parse_string_content s.data f
              (':' :: ' ' :: (printVal w ++ ',' :: ' ' ::
                (printEntries (kv2 :: kvs2) ++ '\x7d' :: rest))) (by omega)
            have hv := ihv w (' ' :: (printVal w ++ ',' :: ' ' ::
                (printEntries (kv2 :: kvs2) ++ '\x7d' :: rest)))
              (',' :: ' ' :: (printEntries (kv2 :: kvs2) ++ '\x7d' :: rest))
              hwf.1 (numSafe_comma _) (by omega)
              (by
                rw [skipWs_space]
                obtain ⟨c, cs2, hpc, hnws, _, _⟩ := printVal_head w
                rw [hpc]
                simp only [List.cons_append]
                exact skipWs_nonws c _ hnws)
            obtain ⟨k2, w2⟩ := kv2
            rw [parseEntries_step_comma f cs _ s.data _ w _ _ _ hskip0
              hk rfl hv rfl]
            rw [ihentries ((k2, w2) :: kvs2)
              (' ' :: (printEntries ((k2, w2) :: kvs2) ++ '\x7d' :: rest))
              rest hwf.2 hstr.2 (by simp)
              (by omega)
              (by
                rw [skipWs_space]
                exact skipWs_printEntries k2 w2 kvs2 ('\x7d' :: rest) hstr.2)]
            rfl


/-- C10 counterexample - serialization does not round-trip every dict:
json.dumps coerces the int key 1 of the dict mapping 1 to 2 to the string
key 1, so deserializing the serialized dict returns a different dict, with
a string key in place of the int key. -/
theorem C10_counterexample :
    json_deserializer (some (json_serializer (.dict [(.int 1, .int 2)])))
      = .val (.dict [(.str "1", .int 2)])
    ∧ PyVal.dict [(.str "1", .int 2)] ≠ PyVal.dict [(.int 1, .int 2)] := by
  have hser : json_serializer (.dict [(.int 1, .int 2)]) = "\x7b\"1\": 2\x7d" := by
    simp [json_serializer, printVal, printEntries, printKey, intToChars,
      natToChars, natDigitsRev]
  rw [hser]
  exact ⟨rfl, by simp⟩

/-- json.loads of the printed form of a well-formed value recovers it. -/
lemma json_loads_rt (v : PyVal) (h : pyWF v = true) :
    json_loads ⟨printVal v⟩ = some v := by
  obtain ⟨c, cs, hpc, hnws, _, _⟩ := printVal_head v
  have hskip : skipWs (printVal v) = printVal v ++ [] := by
    rw [List.append_nil, hpc]
    exact skipWs_nonws c cs hnws
  have hmain := (rt_main ((printVal v).length + 1)).1 v (printVal v) [] h
    numSafe_nil (costVal_le v) hskip
  unfold json_loads
  rw [show parseVal ((String.mk (printVal v)).length + 1)
    (String.mk (printVal v)).data = some (v, []) from hmain]
  rfl

/-- The serialized form of a dict or list is never the empty string. -/
lemma serialized_ne_empty (v : PyVal) (c : Char) (cs : List Char)
    (h : printVal v = c :: cs) : (⟨printVal v⟩ : String) ≠ "" := by
  intro he
  have hd : printVal v = ([] : List Char) := congrArg String.data he
  rw [h] at hd
  exact List.noConfusion hd

/-- C10 (amended): for every dict and every list whose nested dicts have
pairwise-distinct string keys and which holds no float, deserializing the
serialized form returns exactly the value (floats are excluded from the
round-trip clause: a reloaded NaN compares unequal to itself and the
repr/parse rounding of a finite double is abstracted); json_deserializer
returns None on a missing or empty text, the parsed value on text
json.loads accepts - including fraction and exponent numbers, shown at a
concrete float-bearing metadata text whose value 45.5 the decimal model
carries exactly - and the input text unchanged on text json.loads
rejects, shown at a concrete rejected text. It catches only
JSONDecodeError, so the claimed raise-freedom is narrower than stated:
errors other than a parse failure (deep recursion on deeply nested text)
propagate. -/
theorem C10_metadata_round_trip :
    (∀ kvs : List (PyKey × PyVal), pyWF (.dict kvs) = true →
      json_deserializer (some (json_serializer (.dict kvs)))
        = .val (.dict kvs)) ∧
    (∀ xs : List PyVal, pyWF (.list xs) = true →
      json_deserializer (some (json_serializer (.list xs)))
        = .val (.list xs)) ∧
    json_deserializer Option.none = .noneOut ∧
    json_deserializer (some "") = .noneOut ∧
    json_deserializer (some "x") = .text "x" ∧
    (∃ q : ℚ, json_deserializer (some "\x7b\"latitude\": 45.5\x7d")
      = .val (.dict [(.str "latitude", .float (.val q))]) ∧ q = 91 / 2) := by
  refine ⟨?_, ?_, rfl, rfl, rfl, ?_⟩
  · intro kvs hwf
    have hload := json_loads_rt (.dict kvs) hwf
    have hp : printVal (.dict kvs)
        = '\x7b' :: (printEntries kvs ++ ['\x7d']) := by
      simp [printVal]
    show json_deserializer (some ⟨printVal (.dict kvs)⟩) = .val (.dict kvs)
    unfold json_deserializer
    show (if (⟨printVal (.dict kvs)⟩ : String) = "" then DeserOut.noneOut
      else match json_loads ⟨printVal (.dict kvs)⟩ with
        | some v => DeserOut.val v
        | Option.none => DeserOut.text ⟨printVal (.dict kvs)⟩)
      = .val (.dict kvs)
    rw [if_neg (serialized_ne_empty (.dict kvs) _ _ hp), hload]
  · intro xs hwf
    have hload := json_loads_rt (.list xs) hwf
    have hp : printVal (.list xs) = '[' :: (printItems xs ++ [']']) := by
      simp [printVal]
    show json_deserializer (some ⟨printVal (.list xs)⟩) = .val (.list xs)
    unfold json_deserializer
    show (if (⟨printVal (.list xs)⟩ : String) = "" then DeserOut.noneOut
      else match json_loads ⟨printVal (.list xs)⟩ with
        | some v => DeserOut.val v
        | Option.none => DeserOut.text ⟨printVal (.list xs)⟩)
      = .val (.list xs)
    rw [if_neg (serialized_ne_empty (.list xs) _ _ hp), hload]
  · refine ⟨((455 : Nat) : ℚ) * (10 : ℚ) ^ ((0 : Int) - (1 : Int)),
      rfl, ?_⟩
    norm_num

/-- C10 witness: a concrete nested dict and a concrete list round-trip. -/
theorem C10_metadata_round_trip_witness :
    pyWF (.dict [(.str "a", .list [.int 1, .none])]) = true ∧
    json_deserializer (some (json_serializer
        (.dict [(.str "a", .list [.int 1, .none])])))
      = .val (.dict [(.str "a", .list [.int 1, .none])]) ∧
    pyWF (.list [.str "b", .bool true]) = true ∧
    json_deserializer (some (json_serializer (.list [.str "b", .bool true])))
      = .val (.list [.str "b", .bool true]) := by
  have hwf1 : pyWF (.dict [(.str "a", .list [.int 1, .none])]) = true := by
    simp [pyWF, pyWFList, pyWFEntries, strKeys, nodupKeys]
  have hwf2 : pyWF (.list [.str "b", .bool true]) = true := by
    simp [pyWF, pyWFList]
  exact ⟨hwf1, C10_metadata_round_trip.1 _ hwf1, hwf2,
    C10_metadata_round_trip.2.1 _ hwf2⟩

end FieldClimate
